import Mathlib

/-!
Verification of the Youth_Timeline calendar server.

The repository contains three near-duplicate server programs plus the JSON-primary
generation:
  * `src/server.js`                      — iCal-only server, no event filtering;
  * `src/unnamed/part_000`               — keep-all-and-rename filtering server;
  * `src/unnamed/part_001` (first  half) — keep-only-matches filtering server;
  * `src/unnamed/part_001` (second half) — JSON-primary / iCal-fallback server.

Strings are modelled as `List Char` (inputs are ASCII text).  JavaScript string
operations are embedded explicitly: `String.prototype.includes` as `occursIn`,
`String.prototype.startsWith` as `isPrefixB`, sparse-array index assignment as
`jsArraySet` (a JavaScript hole joins as the empty string, so holes are modelled
as empty lines), and the falsiness of the empty string as `= []` tests.
-/

namespace YouthTimeline

/-- Coerce a Lean string literal to the `List Char` string model. -/
def str (s : String) : List Char := s.data

/-- JS `a.startsWith(b)` : `isPrefixB b a = true` iff `b` is a prefix of `a`. -/
def isPrefixB : List Char → List Char → Bool
  | [], _ => true
  | _ :: _, [] => false
  | a :: as, b :: bs => a = b && isPrefixB as bs

/-- JS `s.includes(t)` : `occursIn t s = true` iff `t` occurs contiguously in `s`. -/
def occursIn (t : List Char) : List Char → Bool
  | [] => isPrefixB t []
  | s@(_ :: rest) => isPrefixB t s || occursIn t rest

/-- Whitespace recognised by JS `String.prototype.trim` and `\s` (ASCII part). -/
def isJsWs (c : Char) : Bool :=
  c = ' ' || c = '\t' || c = '\n' || c = '\r' || c = '\x0b' || c = '\x0c'

/-- JS `s.trim()` : drop JS whitespace from both ends. -/
def jsTrim (s : List Char) : List Char :=
  (((s.dropWhile isJsWs).reverse.dropWhile isJsWs)).reverse

/-- JS `s.toLowerCase()` on ASCII text. -/
def lowerStr (s : List Char) : List Char := s.map Char.toLower

/-- Shared global exclusion list (`EXCLUDE_FILTERS` in part_000 and part_001). -/
def EXCLUDE_FILTERS : List (List Char) := [str "Revival Champions League Night"]

/-- The exclusion test applied to a tracked event summary:
`EXCLUDE_FILTERS.some(ex => currentEventSummary.includes(ex))`. -/
def exclSummary (sum : List Char) : Prop :=
  ∃ ex ∈ EXCLUDE_FILTERS, occursIn ex sum = true

instance (sum : List Char) : Decidable (exclSummary sum) := by
  unfold exclSummary; infer_instance

/-- `cleanEventName(name, filterText)` of `src/unnamed/part_000` (lines 50-62):
a summary that contains the configured family name collapses to the short label. -/
def cleanEventNameA (name ft : List Char) : List Char :=
  if name = [] then name
  else if ft = str "BlessThun" ∧ occursIn (str "BlessThun") name = true then
    str "BlessThun"
  else if ft = str "Youth Revival" ∧ occursIn (str "Youth Revival") name = true then
    str "Youth Revival"
  else name

/-- `cleanEventName(name, filterText)` of `src/unnamed/part_001`, first program
(lines 90-104): any matched summary is replaced by the filter label itself. -/
def cleanEventNameB (name ft : List Char) : List Char :=
  if name = [] then name
  else if ft = str "BlessThun" then str "BlessThun"
  else if ft = str "Youth Revival" then str "Youth Revival"
  else name

/-- `cleanEventName(name)` of `src/unnamed/part_001`, second program
(lines 411-420): trim, then collapse only a full case-insensitive match of
`/^BlessThun$/i` or `/^Youth Revival\s*$/i`. -/
def cleanEventNameC (name : List Char) : List Char :=
  if name = [] then name
  else
    let n := jsTrim name
    if lowerStr n = str "blessthun" then str "BlessThun"
    else if isPrefixB (str "youth revival") (lowerStr n) = true ∧ (n.drop 13).all isJsWs = true then
      str "Youth Revival"
    else n

/-!  ## The iCal line model

`icalData.replace(/\r\n[ \t]/g, '').replace(/\n[ \t]/g, '')` followed by
`split(/\r\n|\n|\r/)`.  Each `replace` is a single left-to-right scan that
deletes non-overlapping matches; the splitter prefers `\r\n` over `\n` over `\r`
at each position, as the regex alternation does. -/

/-- One `/g` pass deleting every `\r\n` immediately followed by a space or tab.
When a `\r` does not begin a match the scan resumes one character later, which
coincides with rescanning the tail. -/
def stripCRLFfold : List Char → List Char
  | '\r' :: '\n' :: d :: rest2 =>
    if d = ' ' ∨ d = '\t' then stripCRLFfold rest2
    else '\r' :: '\n' :: stripCRLFfold (d :: rest2)
  | c :: rest => c :: stripCRLFfold rest
  | [] => []

/-- One `/g` pass deleting every `\n` immediately followed by a space or tab. -/
def stripLFfold : List Char → List Char
  | '\n' :: d :: rest2 =>
    if d = ' ' ∨ d = '\t' then stripLFfold rest2
    else '\n' :: stripLFfold (d :: rest2)
  | c :: rest => c :: stripLFfold rest
  | [] => []

/-- `split(/\r\n|\n|\r/)` : split into lines, preferring `\r\n` at each position. -/
def splitLines : List Char → List (List Char)
  | [] => [[]]
  | '\r' :: '\n' :: rest2 => [] :: splitLines rest2
  | '\r' :: rest => [] :: splitLines rest
  | '\n' :: rest => [] :: splitLines rest
  | c :: rest =>
    match splitLines rest with
    | [] => [[c]]
    | l :: ls => (c :: l) :: ls

/-- The full line model of part_000 lines 66-69 / part_001 lines 513-515:
unfold CRLF folds, unfold LF folds, then split on any line break. -/
def logicalLines (icalData : List Char) : List (List Char) :=
  splitLines (stripLFfold (stripCRLFfold icalData))

/-- JS `array.join(sep)`. -/
def joinSep (sep : List Char) : List (List Char) → List Char
  | [] => []
  | [l] => l
  | l :: ls => l ++ sep ++ joinSep sep ls

/-!  ## The event filter loop -/

/-- The mutable state of the `filterIcalEvents` scan loop.  `sumIdx = none`
models the `-1` sentinel of `summaryLineIndex`. -/
structure FilterState where
  inEvent : Bool
  cur : List (List Char)
  summary : List Char
  sumIdx : Option Nat
  out : List (List Char)
deriving DecidableEq, Repr

/-- The initial loop state. -/
def initState : FilterState :=
  { inEvent := false, cur := [], summary := [], sumIdx := none, out := [] }

/-- JS `xs[i] = v` on an array: in-bounds assignment updates, out-of-bounds
assignment grows the array; the holes created join as empty strings, so they
are modelled as empty lines. -/
def jsArraySet (xs : List (List Char)) (i : Nat) (v : List Char) : List (List Char) :=
  if i < xs.length then xs.set i v
  else xs ++ List.replicate (i - xs.length) [] ++ [v]

/-- One iteration of the `filterIcalEvents` loop shared by part_000 (lines
76-109) and the second program of part_001 (lines 522-552).  The two variants
differ only in the `cleanEventName` call, passed as `clean`. -/
def filterStep (ft : List Char) (clean : List Char → List Char)
    (st : FilterState) (line : List Char) : FilterState :=
  if line = str "BEGIN:VEVENT" then
    { st with inEvent := true, cur := [line], summary := [], sumIdx := none }
  else if line = str "END:VEVENT" then
    let cur0 := st.cur ++ [line]
    let out' :=
      if exclSummary st.summary then st.out
      else
        let cur1 :=
          match st.sumIdx with
          | some i =>
            if ft ≠ [] ∧ occursIn ft st.summary = true then
              jsArraySet cur0 i (str "SUMMARY:" ++ clean st.summary)
            else cur0
          | none => cur0
        st.out ++ cur1
    { st with inEvent := false, cur := [], out := out' }
  else if st.inEvent then
    let cur0 := st.cur ++ [line]
    if isPrefixB (str "SUMMARY:") line then
      { st with cur := cur0, summary := line.drop 8, sumIdx := some (cur0.length - 1) }
    else { st with cur := cur0 }
  else
    { st with out := st.out ++ [line] }

/-- The whole scan loop over the logical lines. -/
def filterLoop (ft : List Char) (clean : List Char → List Char)
    (lines : List (List Char)) : List (List Char) :=
  (lines.foldl (filterStep ft clean) initState).out

/-- Unfold, split, scan, and re-join with CRLF — the common shape of
`filterIcalEvents` in part_000 and the second program of part_001. -/
def filterIcalCore (ft : List Char) (clean : List Char → List Char)
    (icalData : List Char) : List Char :=
  joinSep (str "\r\n") (filterLoop ft clean (logicalLines icalData))

/-- `filterIcalEvents(icalData, filterText)` of `src/unnamed/part_000`
(lines 65-112): keep all events, rename primaries, drop excluded. -/
def filterIcalEventsA (icalData ft : List Char) : List Char :=
  filterIcalCore ft (fun s => cleanEventNameA s ft) icalData

/-- `filterIcalEvents(icalData, filterText)` of `src/unnamed/part_001`, second
program (lines 513-555): same loop, with the one-argument `cleanEventName`. -/
def filterIcalEventsC (icalData ft : List Char) : List Char :=
  filterIcalCore ft cleanEventNameC icalData

/-- JS `line.split(':').slice(1).join(':')`: everything after the first colon,
or the empty string if there is none. -/
def splitColonTail (line : List Char) : List Char :=
  if occursIn [':'] line = true then (line.dropWhile (· ≠ ':')).drop 1 else []

/-- One iteration of `filterIcalEvents` of `src/unnamed/part_001`, first
program (lines 117-146): keep-only-matches mode.  Note: no exclusion check,
summary key matched by `startsWith('SUMMARY')` without the colon. -/
def filterStepB (ft : List Char) (st : FilterState) (line : List Char) : FilterState :=
  if line = str "BEGIN:VEVENT" then
    { st with inEvent := true, cur := [line], summary := [], sumIdx := none }
  else if line = str "END:VEVENT" then
    let cur0 := st.cur ++ [line]
    let out' :=
      if occursIn ft st.summary = true then
        let cur1 :=
          match st.sumIdx with
          | some i => jsArraySet cur0 i (str "SUMMARY:" ++ cleanEventNameB st.summary ft)
          | none => cur0
        st.out ++ cur1
      else st.out
    { st with inEvent := false, cur := [], out := out' }
  else if st.inEvent then
    let cur0 := st.cur ++ [line]
    if isPrefixB (str "SUMMARY") line then
      { st with cur := cur0, summary := splitColonTail line, sumIdx := some (cur0.length - 1) }
    else { st with cur := cur0 }
  else
    { st with out := st.out ++ [line] }

/-- `filterIcalEvents(icalData, filterText)` of `src/unnamed/part_001`, first
program (lines 107-149): early return on a falsy filter, split without
unfolding, keep only events whose summary contains the filter text. -/
def filterIcalEventsB (icalData ft : List Char) : List Char :=
  if ft = [] then icalData
  else joinSep (str "\r\n") ((splitLines icalData).foldl (filterStepB ft) initState).out

/-!  ## JSON-to-iCal conversion (part_001, second program, lines 430-477) -/

/-- One upstream Elvanto JSON event record.  `endv` models the `end` field and
`wherev` the `where` field (both are Lean keywords); the empty string models an
absent/falsy field, matching how the converter consumes them. -/
structure JsonEvt where
  id : Nat
  uid : List Char
  title : List Char
  start : List Char
  endv : List Char
  allDay : Bool
  wherev : List Char
  description : List Char

/-- `s.replace(/[-: ]/g, '')`. -/
def stripDTSep (s : List Char) : List Char :=
  s.filter fun c => ¬(c = '-' ∨ c = ':' ∨ c = ' ')

/-- `s.replace(/^(\d{8})(\d{6})$/, '$1T$2')` : insert the time designator when
the string is exactly fourteen digits. -/
def insertT (s : List Char) : List Char :=
  if s.length = 14 ∧ s.all Char.isDigit then s.take 8 ++ 'T' :: s.drop 8 else s

/-- `s.replace(/,/g, '\\,')`. -/
def escCommas (s : List Char) : List Char :=
  s.flatMap fun c => if c = ',' then ['\\', ','] else [c]

/-- `s.replace(/\n/g, '\\n')`. -/
def escNewlines (s : List Char) : List Char :=
  s.flatMap fun c => if c = '\n' then ['\\', 'n'] else [c]

/-- Attempt to match `[^>]+>` at the head of `cs` (the text just after a `<`),
returning the remainder after the closing `>`. -/
def scanTag (cs : List Char) : Option (List Char) :=
  if cs.takeWhile (· ≠ '>') = [] then none
  else
    match cs.drop (cs.takeWhile (· ≠ '>')).length with
    | '>' :: rest => some rest
    | _ => none

theorem scanTag_length (cs rest : List Char) (h : scanTag cs = some rest) :
    rest.length < cs.length := by
  unfold scanTag at h
  split at h
  next => cases h
  next h0 =>
    split at h
    next rest2 heq =>
      cases h
      have hle : (cs.takeWhile (· ≠ '>')).length ≤ cs.length :=
        (List.takeWhile_sublist _).length_le
      have hpos : 0 < (cs.takeWhile (· ≠ '>')).length := List.length_pos.mpr h0
      have hlen := congrArg List.length heq
      rw [List.length_drop] at hlen
      simp only [List.length_cons] at hlen
      omega
    next => cases h

/-- `s.replace(/<[^>]+>/g, '')` : delete every HTML tag in one scan. -/
def stripTags : List Char → List Char
  | [] => []
  | '<' :: rest =>
    match h : scanTag rest with
    | some rest2 => stripTags rest2
    | none => '<' :: stripTags rest
  | c :: rest => c :: stripTags rest
termination_by l => l.length
decreasing_by
· have := scanTag_length rest rest2 h; simp; omega
· simp
· simp

/-- The per-event text appended by the `for` loop of `jsonEventsToIcal`
(part_001 lines 436-472); an excluded title contributes nothing (`continue`). -/
def icalEvtChunk (evt : JsonEvt) : List Char :=
  if ∃ ex ∈ EXCLUDE_FILTERS, evt.title ≠ [] ∧ occursIn ex evt.title = true then []
  else
    let name := cleanEventNameC evt.title
    let uidVal := if evt.uid ≠ [] then evt.uid else str (toString evt.id)
    let dateLines :=
      if evt.allDay then
        str "DTSTART;VALUE=DATE:" ++ (stripDTSep evt.start).take 8
          ++ str "\r\nDTEND;VALUE=DATE:" ++ (stripDTSep evt.endv).take 8 ++ str "\r\n"
      else
        str "DTSTART;TZID=Europe/Zurich:" ++ insertT (stripDTSep evt.start)
          ++ str "\r\nDTEND;TZID=Europe/Zurich:" ++ insertT (stripDTSep evt.endv) ++ str "\r\n"
    let locLine :=
      if evt.wherev ≠ [] then str "LOCATION:" ++ escCommas evt.wherev ++ str "\r\n" else []
    let descLine :=
      if evt.description ≠ [] then
        let desc := jsTrim (stripTags evt.description)
        if desc ≠ [] then str "DESCRIPTION:" ++ escNewlines desc ++ str "\r\n" else []
      else []
    str "BEGIN:VEVENT\r\nUID:" ++ uidVal ++ str "\r\nSUMMARY:" ++ name ++ str "\r\n"
      ++ dateLines ++ locLine ++ descLine ++ str "END:VEVENT\r\n"

/-- `jsonEventsToIcal(jsonEvents, calendarName)` of part_001 (lines 430-477). -/
def jsonEventsToIcal (jsonEvents : List JsonEvt) (calendarName : List Char) : List Char :=
  let header := str "BEGIN:VCALENDAR\r\nVERSION:2.0\r\nPRODID:-//BlessThun Timeline//"
    ++ calendarName ++ str "//EN\r\nX-WR-TIMEZONE:Europe/Zurich\r\n"
  (jsonEvents.foldl (fun acc evt => acc ++ icalEvtChunk evt) header) ++ str "END:VCALENDAR\r\n"

/-!  ## Config loading -/

/-- The two URL environment variables; the empty string models an unset or
empty (falsy) variable. -/
structure EnvVars where
  BLESSTHUN_ICAL_URL : List Char
  YOUTH_ICAL_URL : List Char

/-- The configuration record the servers work with. -/
structure Config where
  blessthunUrl : List Char
  youthUrl : List Char
  lastFetch : Option (List Char)
deriving DecidableEq, Repr

/-- JS `a || b` on strings: the empty string is falsy. -/
def jsOr (a b : List Char) : List Char := if a = [] then b else a

/-- `loadConfig()` of `src/server.js` (lines 23-36), `src/unnamed/part_000`
(lines 19-32) and the first program of part_001 (lines 24-37): if the config
file exists and parses, it is returned as-is and the environment is ignored;
only otherwise are the environment URLs consulted.  `file = none` models a
missing or unparsable file. -/
def loadConfigLegacy (env : EnvVars) (file : Option Config) : Config :=
  match file with
  | some cfg => cfg
  | none =>
    { blessthunUrl := jsOr env.BLESSTHUN_ICAL_URL []
      youthUrl := jsOr env.YOUTH_ICAL_URL []
      lastFetch := none }

/-- The parsed content of the config file for the JSON-primary variant, where
individual fields may be absent (modelled by `[]` / `none`). -/
structure FileConfig where
  blessthunUrl : List Char
  youthUrl : List Char
  lastFetch : Option (List Char)

/-- `loadConfig()` of the second program of part_001 (lines 376-399):
`process.env.X || fileConfig.x || ''` — the environment wins when non-empty. -/
def loadConfigC (env : EnvVars) (file : FileConfig) : Config :=
  { blessthunUrl := jsOr env.BLESSTHUN_ICAL_URL (jsOr file.blessthunUrl [])
    youthUrl := jsOr env.YOUTH_ICAL_URL (jsOr file.youthUrl [])
    lastFetch := file.lastFetch }

/-!  ## Fetch paths

HTTP is abstracted as an explicit input: `none` models a network error or
timeout (a rejected promise), `some r` a response with status flag and body.
Each path returns `(success, persisted)` where `persisted = some d` means the
path wrote document `d` to the identity's calendar file and `none` means the
file was not touched; the source contains no delete operation at all. -/

structure HttpResp where
  ok : Bool
  body : List Char
deriving DecidableEq, Repr

/-- `fetchCalendar(url, filename)` of `src/server.js` (lines 66-98): requires
the `BEGIN:VCALENDAR` marker, performs no filtering. -/
def fetchCalendarSrv (url : List Char) (resp : Option HttpResp) :
    Bool × Option (List Char) :=
  if url = [] then (false, none)
  else
    match resp with
    | none => (false, none)
    | some r =>
      if ¬ r.ok then (false, none)
      else if ¬ occursIn (str "BEGIN:VCALENDAR") r.body = true then (false, none)
      else (true, some r.body)

/-- `fetchCalendar(url, filename)` of the first program of part_001 (lines
152-193): marker check, then keep-only-matches filtering when a filter text is
configured for the file name.  `ft` is `EVENT_FILTERS[filename]`, with `[]`
modelling an unknown file name (undefined). -/
def fetchCalendarV1 (url : List Char) (resp : Option HttpResp) (ft : List Char) :
    Bool × Option (List Char) :=
  if url = [] then (false, none)
  else
    match resp with
    | none => (false, none)
    | some r =>
      if ¬ r.ok then (false, none)
      else if ¬ occursIn (str "BEGIN:VCALENDAR") r.body = true then (false, none)
      else if ft ≠ [] then (true, some (filterIcalEventsB r.body ft))
      else (true, some r.body)

/-- `PRIMARY_FILTERS[filename]` of the second program of part_001 (lines
508-511); an unknown key yields `[]` (undefined). -/
def PRIMARY_FILTERS_C (filename : List Char) : List Char :=
  if filename = str "blessthun.ics" then str "BlessThun"
  else if filename = str "youth.ics" then str "Youth Revival"
  else []

/-- `fetchFromIcal(url, filename)` of the second program of part_001 (lines
557-579): note that, unlike the other variants, it performs no
`BEGIN:VCALENDAR` check before filtering and persisting. -/
def fetchFromIcalC (url : List Char) (resp : Option HttpResp) (filename : List Char) :
    Bool × Option (List Char) :=
  if url = [] then (false, none)
  else
    match resp with
    | none => (false, none)
    | some r =>
      if ¬ r.ok then (false, none)
      else (true, some (filterIcalEventsC r.body (PRIMARY_FILTERS_C filename)))

/-- `fetchFromJsonApi(type, filename)` of the second program of part_001
(lines 479-505).  `jsonResp = none` models a network error or non-2xx status,
`some none` a response whose JSON payload is not an array, `some (some evts)`
an array payload. -/
def fetchFromJsonApiC (jsonResp : Option (Option (List JsonEvt))) (ty : List Char) :
    Bool × Option (List Char) :=
  match jsonResp with
  | none => (false, none)
  | some none => (false, none)
  | some (some evts) => (true, some (jsonEventsToIcal evts ty))

/-- `fetchCalendar(type, filename)` of the second program of part_001 (lines
582-590): JSON API first, iCal fallback on failure. -/
def fetchCalendarC (jsonResp : Option (Option (List JsonEvt))) (ty : List Char)
    (icalUrl : List Char) (icalResp : Option HttpResp) (filename : List Char) :
    Bool × Option (List Char) :=
  let j := fetchFromJsonApiC jsonResp ty
  if j.1 then j else fetchFromIcalC icalUrl icalResp filename

/-!  ## Structured documents

To reason about the filter loop we describe well-formed documents as a list of
items — plain lines outside any block and complete event blocks — and
characterise the loop's output item by item. -/

/-- A document item: a plain line outside any block, or a complete event block
given by its content lines (markers excluded). -/
inductive DocItem where
  | plain (l : List Char)
  | block (content : List (List Char))
deriving DecidableEq, Repr

/-- The logical lines of one item. -/
def renderItem : DocItem → List (List Char)
  | .plain l => [l]
  | .block c => str "BEGIN:VEVENT" :: c ++ [str "END:VEVENT"]

/-- The logical lines of a structured document. -/
def renderDoc (items : List DocItem) : List (List Char) :=
  (items.map renderItem).flatten

/-- A line that is neither marker. -/
def notMarker (l : List Char) : Prop :=
  l ≠ str "BEGIN:VEVENT" ∧ l ≠ str "END:VEVENT"

instance (l : List Char) : Decidable (notMarker l) := by
  unfold notMarker; infer_instance

/-- The first character is not a space or tab (so CRLF-joining introduces no
fold sequence before this line). -/
def headNotWs : List Char → Bool
  | [] => true
  | c :: _ => c ≠ ' ' && c ≠ '\t'

/-- A line free of CR and LF that does not begin with space or tab. -/
def pureLine (l : List Char) : Bool :=
  l.all (fun c => c ≠ '\r' && c ≠ '\n') && headNotWs l

/-- Well-formedness of an item: no marker among its lines and all lines pure. -/
def wfItem : DocItem → Prop
  | .plain l => notMarker l ∧ pureLine l = true
  | .block c => ∀ l ∈ c, notMarker l ∧ pureLine l = true

instance instDecWfItem : (it : DocItem) → Decidable (wfItem it)
  | .plain l => inferInstanceAs (Decidable (notMarker l ∧ pureLine l = true))
  | .block c => inferInstanceAs (Decidable (∀ l ∈ c, notMarker l ∧ pureLine l = true))

/-- Well-formedness of a structured document. -/
def wfDoc (items : List DocItem) : Prop := ∀ it ∈ items, wfItem it

instance (items : List DocItem) : Decidable (wfDoc items) := by
  unfold wfDoc; infer_instance

/-- Replay of the in-block summary tracking: starting at position `pos` within
the accumulated block and with current tracking `acc`, fold over the content
lines recording the last `SUMMARY:`-prefixed line's position and value. -/
def scanSum : Nat → Option Nat × List Char → List (List Char) → Option Nat × List Char
  | _, acc, [] => acc
  | pos, acc, l :: ls =>
    scanSum (pos + 1) (if isPrefixB (str "SUMMARY:") l then (some pos, l.drop 8) else acc) ls

/-- What the loop appends to its output for one complete block with content
`c`: nothing if the tracked summary matches the exclusion list, otherwise the
block with its tracked summary line possibly rewritten. -/
def emitBlock (ft : List Char) (clean : List Char → List Char)
    (c : List (List Char)) : List (List Char) :=
  if exclSummary (scanSum 1 (none, []) c).2 then []
  else
    match (scanSum 1 (none, []) c).1 with
    | some i =>
      if ft ≠ [] ∧ occursIn ft (scanSum 1 (none, []) c).2 = true then
        jsArraySet (str "BEGIN:VEVENT" :: c ++ [str "END:VEVENT"]) i
          (str "SUMMARY:" ++ clean (scanSum 1 (none, []) c).2)
      else str "BEGIN:VEVENT" :: c ++ [str "END:VEVENT"]
    | none => str "BEGIN:VEVENT" :: c ++ [str "END:VEVENT"]

/-- Per-item output of the loop on a well-formed document. -/
def emitItem (ft : List Char) (clean : List Char → List Char) : DocItem → List (List Char)
  | .plain l => [l]
  | .block c => emitBlock ft clean c

/-- Every `BEGIN:VEVENT` line is followed, somewhere later, by an
`END:VEVENT` line. -/
def closedBegins : List (List Char) → Bool
  | [] => true
  | l :: ls =>
    (if l = str "BEGIN:VEVENT" then decide (str "END:VEVENT" ∈ ls) else true)
      && closedBegins ls

/-- The content of a block after one filter pass (when the block is kept). -/
def rewriteContent (ft : List Char) (clean : List Char → List Char)
    (c : List (List Char)) : List (List Char) :=
  match scanSum 1 (none, []) c with
  | (some i, sum) =>
    if ft ≠ [] ∧ occursIn ft sum = true then
      c.set (i - 1) (str "SUMMARY:" ++ clean sum)
    else c
  | (none, _) => c

/-- One filter pass at the item level. -/
def processItem (ft : List Char) (clean : List Char → List Char) :
    DocItem → Option DocItem
  | .plain l => some (.plain l)
  | .block c =>
    if exclSummary (scanSum 1 (none, []) c).2 then none
    else some (.block (rewriteContent ft clean c))

/-- One filter pass at the document level. -/
def processDoc (ft : List Char) (clean : List Char → List Char)
    (items : List DocItem) : List DocItem :=
  items.filterMap (processItem ft clean)

/-- The marker-freeness part of item well-formedness. -/
def wfItemLines : DocItem → Prop
  | .plain l => notMarker l
  | .block c => ∀ l ∈ c, notMarker l

/-- The loop invariant used to prove that every begin marker emitted to the
output is eventually followed by an end marker. -/
def loopInv (st : FilterState) : Prop :=
  (st.inEvent = false → st.cur = []) ∧
  (st.inEvent = true → st.cur ≠ []) ∧
  (∀ i, st.sumIdx = some i → 1 ≤ i ∧ (st.inEvent = true → i < st.cur.length)) ∧
  closedBegins st.out = true


/-!  ## Basic lemmas about the string model -/

theorem isPrefixB_append_self (t b : List Char) : isPrefixB t (t ++ b) = true := by
  induction t with
  | nil => rfl
  | cons c cs ih => simp [isPrefixB, ih]

theorem isPrefixB_extend (t s b : List Char) (h : isPrefixB t s = true) :
    isPrefixB t (s ++ b) = true := by
  induction t generalizing s with
  | nil => rfl
  | cons c cs ih =>
    cases s with
    | nil => cases h
    | cons d ds =>
      simp only [isPrefixB, Bool.and_eq_true, decide_eq_true_eq] at h
      simp [isPrefixB, h.1, ih ds h.2]

theorem occursIn_cons (t : List Char) (c : Char) (s : List Char) :
    occursIn t (c :: s) = (isPrefixB t (c :: s) || occursIn t s) := rfl

theorem occursIn_of_isPrefixB (t s : List Char) (h : isPrefixB t s = true) :
    occursIn t s = true := by
  cases s with
  | nil => simpa [occursIn] using h
  | cons c cs => simp [occursIn_cons, h]

theorem occursIn_append_right (t a s : List Char) (h : occursIn t s = true) :
    occursIn t (a ++ s) = true := by
  induction a with
  | nil => simpa using h
  | cons c cs ih => simp [occursIn_cons, ih]

theorem occursIn_extend (t s b : List Char) (h : occursIn t s = true) :
    occursIn t (s ++ b) = true := by
  induction s with
  | nil =>
    cases t with
    | nil => exact occursIn_of_isPrefixB _ _ (isPrefixB_append_self [] b)
    | cons c cs => cases h
  | cons c cs ih =>
    rw [occursIn_cons] at h
    rcases Bool.or_eq_true_iff.mp h with h1 | h2
    · exact occursIn_of_isPrefixB _ _ (by simpa using isPrefixB_extend _ _ b h1)
    · simp [occursIn_cons, ih h2]

theorem occursIn_mid (t a b : List Char) : occursIn t (a ++ t ++ b) = true := by
  have h1 : occursIn t (t ++ b) = true :=
    occursIn_of_isPrefixB _ _ (isPrefixB_append_self t b)
  simpa [List.append_assoc] using occursIn_append_right t a (t ++ b) h1

theorem occursIn_infix (t u a b s : List Char) (hs : s = a ++ u ++ b)
    (h : occursIn t u = true) : occursIn t s = true := by
  subst hs
  simpa [List.append_assoc] using
    occursIn_append_right t a (u ++ b) (occursIn_extend _ _ _ h)

/-!  ## Round-trip lemmas: joining pure lines and re-splitting is the identity -/

theorem pureLine_no_crlf {l : List Char} (h : pureLine l = true) :
    ∀ c ∈ l, c ≠ '\r' ∧ c ≠ '\n' := by
  intro c hc
  simp only [pureLine, Bool.and_eq_true, List.all_eq_true] at h
  simpa using h.1 c hc

theorem pureLine_headNotWs {l : List Char} (h : pureLine l = true) :
    headNotWs l = true := by
  simp only [pureLine, Bool.and_eq_true] at h
  exact h.2

theorem stripCRLFfold_nil : stripCRLFfold [] = [] := rfl

theorem stripLFfold_nil : stripLFfold [] = [] := rfl

theorem stripCRLFfold_cons_ne (c : Char) (xs : List Char) (hc : c ≠ '\r') :
    stripCRLFfold (c :: xs) = c :: stripCRLFfold xs := by
  cases xs with
  | nil => simp [stripCRLFfold]
  | cons d rest =>
    cases rest with
    | nil => simp [stripCRLFfold, hc]
    | cons e rest2 => simp [stripCRLFfold, hc]

theorem stripCRLFfold_cons_cr (xs : List Char)
    (hx : ∀ d rest2, xs ≠ '\n' :: d :: rest2) :
    stripCRLFfold ('\r' :: xs) = '\r' :: stripCRLFfold xs := by
  cases xs with
  | nil => simp [stripCRLFfold]
  | cons d rest =>
    cases rest with
    | nil => simp [stripCRLFfold]
    | cons e rest2 =>
      by_cases hd : d = '\n'
      · exact absurd (by rw [hd]) (hx e rest2)
      · simp [stripCRLFfold, hd]

theorem stripCRLFfold_append_no_cr (a b : List Char) (ha : ∀ c ∈ a, c ≠ '\r') :
    stripCRLFfold (a ++ b) = a ++ stripCRLFfold b := by
  induction a with
  | nil => simp
  | cons c a' ih =>
    have hc : c ≠ '\r' := ha c (by simp)
    simp [stripCRLFfold_cons_ne c _ hc, ih fun x hx => ha x (by simp [hx])]

theorem stripCRLFfold_eq_self (a : List Char) (ha : ∀ c ∈ a, c ≠ '\r') :
    stripCRLFfold a = a := by
  simpa [stripCRLFfold_nil] using stripCRLFfold_append_no_cr a [] ha

theorem stripLFfold_cons_ne (c : Char) (xs : List Char) (hc : c ≠ '\n') :
    stripLFfold (c :: xs) = c :: stripLFfold xs := by
  cases xs with
  | nil => simp [stripLFfold]
  | cons d rest => simp [stripLFfold, hc]

theorem stripLFfold_append_no_lf (a b : List Char) (ha : ∀ c ∈ a, c ≠ '\n') :
    stripLFfold (a ++ b) = a ++ stripLFfold b := by
  induction a with
  | nil => simp
  | cons c a' ih =>
    have hc : c ≠ '\n' := ha c (by simp)
    simp [stripLFfold_cons_ne c _ hc, ih fun x hx => ha x (by simp [hx])]

theorem stripLFfold_eq_self (a : List Char) (ha : ∀ c ∈ a, c ≠ '\n') :
    stripLFfold a = a := by
  simpa [stripLFfold_nil] using stripLFfold_append_no_lf a [] ha

theorem headNotWs_append (a b : List Char) (ha : a ≠ []) :
    headNotWs (a ++ b) = headNotWs a := by
  cases a with
  | nil => exact absurd rfl ha
  | cons c a' => rfl

theorem headNotWs_joinSep (sep : List Char) (lines : List (List Char))
    (hsep : headNotWs sep = true)
    (h : ∀ l ∈ lines, pureLine l = true) :
    headNotWs (joinSep sep lines) = true := by
  cases lines with
  | nil => rfl
  | cons l ls =>
    cases ls with
    | nil => exact pureLine_headNotWs (h l (by simp))
    | cons l2 ls2 =>
      show headNotWs (l ++ sep ++ joinSep sep (l2 :: ls2)) = true
      cases l with
      | nil =>
        cases sep with
        | nil => simpa using hsep ▸ (by
            have : joinSep [] (l2 :: ls2) = joinSep ([] : List Char) (l2 :: ls2) := rfl
            exact (headNotWs_joinSep [] (l2 :: ls2) hsep fun x hx => h x (by simp [hx])))
        | cons sc sr =>
          rw [show (([] : List Char) ++ (sc :: sr) ++ joinSep (sc :: sr) (l2 :: ls2))
              = (sc :: sr) ++ joinSep (sc :: sr) (l2 :: ls2) by simp,
            headNotWs_append _ _ (by simp)]
          exact hsep
      | cons c l' =>
        rw [show ((c :: l') ++ sep ++ joinSep sep (l2 :: ls2))
            = (c :: l') ++ (sep ++ joinSep sep (l2 :: ls2)) by simp,
          headNotWs_append _ _ (by simp)]
        exact pureLine_headNotWs (h _ (by simp))

theorem mem_joinSep (sep : List Char) (lines : List (List Char)) (c : Char)
    (hc : c ∈ joinSep sep lines) : c ∈ sep ∨ ∃ l ∈ lines, c ∈ l := by
  induction lines with
  | nil => simp [joinSep] at hc
  | cons l ls ih =>
    cases ls with
    | nil =>
      refine Or.inr ⟨l, by simp, ?_⟩
      simpa [joinSep] using hc
    | cons l2 ls2 =>
      have : c ∈ l ++ sep ++ joinSep sep (l2 :: ls2) := hc
      rcases List.mem_append.mp this with h1 | h2
      · rcases List.mem_append.mp h1 with h3 | h4
        · exact Or.inr ⟨l, by simp, h3⟩
        · exact Or.inl h4
      · rcases ih h2 with h5 | ⟨l', hl', hc'⟩
        · exact Or.inl h5
        · exact Or.inr ⟨l', by simp [hl'], hc'⟩

theorem splitLines_ne_nil (s : List Char) : splitLines s ≠ [] := by
  induction s with
  | nil => simp [splitLines]
  | cons c rest ih =>
    by_cases hc : c = '\r'
    · subst hc
      cases rest with
      | nil => simp [splitLines]
      | cons d rest2 =>
        by_cases hd : d = '\n'
        · subst hd; simp [splitLines]
        · simp [splitLines, hd]
    · by_cases hc2 : c = '\n'
      · subst hc2; simp [splitLines]
      · rcases hsp : splitLines rest with _ | ⟨l, ls⟩
        · exact absurd hsp ih
        · simp [splitLines, hc, hc2, hsp]

theorem splitLines_cons_ne (c : Char) (xs : List Char) (hc : c ≠ '\r') (hc2 : c ≠ '\n') :
    splitLines (c :: xs)
      = (c :: (splitLines xs).headI) :: (splitLines xs).tail := by
  rcases hsp : splitLines xs with _ | ⟨l, ls⟩
  · exact absurd hsp (splitLines_ne_nil xs)
  · simp [splitLines, hc, hc2, hsp]

theorem splitLines_crlf (xs : List Char) :
    splitLines ('\r' :: '\n' :: xs) = [] :: splitLines xs := by
  simp [splitLines]

theorem splitLines_lf (xs : List Char) :
    splitLines ('\n' :: xs) = [] :: splitLines xs := by
  simp [splitLines]

theorem splitLines_cr (xs : List Char) (hx : ∀ rest2, xs ≠ '\n' :: rest2) :
    splitLines ('\r' :: xs) = [] :: splitLines xs := by
  cases xs with
  | nil => simp [splitLines]
  | cons d rest =>
    by_cases hd : d = '\n'
    · exact absurd (by rw [hd]) (hx rest)
    · simp [splitLines, hd]

theorem splitLines_append_pure (a b : List Char)
    (ha : ∀ c ∈ a, c ≠ '\r' ∧ c ≠ '\n') :
    splitLines (a ++ b) = (a ++ (splitLines b).headI) :: (splitLines b).tail := by
  induction a with
  | nil =>
    rcases hsp : splitLines b with _ | ⟨l, ls⟩
    · exact absurd hsp (splitLines_ne_nil b)
    · simp [hsp]
  | cons c a' ih =>
    have hc := ha c (by simp)
    rw [List.cons_append, splitLines_cons_ne c _ hc.1 hc.2,
      ih fun x hx => ha x (by simp [hx])]
    simp

theorem str_crlf : str "\r\n" = ['\r', '\n'] := rfl

theorem str_lf : str "\n" = ['\n'] := rfl

theorem str_cr : str "\r" = ['\r'] := rfl

theorem joinSep_no_char (sep : List Char) (lines : List (List Char)) (c : Char)
    (hsep : c ∉ sep) (h : ∀ l ∈ lines, c ∉ l) : c ∉ joinSep sep lines := by
  intro hc
  rcases mem_joinSep sep lines c hc with h1 | ⟨l, hl, hcl⟩
  · exact hsep h1
  · exact h l hl hcl

theorem stripCRLFfold_crlf_cons (d : Char) (t2 : List Char) :
    stripCRLFfold ('\r' :: '\n' :: d :: t2)
      = if d = ' ' ∨ d = '\t' then stripCRLFfold t2
        else '\r' :: '\n' :: stripCRLFfold (d :: t2) := by
  simp [stripCRLFfold]

theorem stripLFfold_lf_cons (d : Char) (t2 : List Char) :
    stripLFfold ('\n' :: d :: t2)
      = if d = ' ' ∨ d = '\t' then stripLFfold t2
        else '\n' :: stripLFfold (d :: t2) := by
  simp [stripLFfold]

theorem stripCRLFfold_crlf_append (t : List Char) (hh : headNotWs t = true)
    (ht : stripCRLFfold t = t) :
    stripCRLFfold ('\r' :: '\n' :: t) = '\r' :: '\n' :: t := by
  cases t with
  | nil => rfl
  | cons d t2 =>
    have hd : ¬(d = ' ' ∨ d = '\t') := by
      simp only [headNotWs, Bool.and_eq_true, decide_eq_true_eq] at hh
      tauto
    rw [stripCRLFfold_crlf_cons, if_neg hd, ht]

theorem stripLFfold_lf_append (t : List Char) (hh : headNotWs t = true)
    (ht : stripLFfold t = t) :
    stripLFfold ('\n' :: t) = '\n' :: t := by
  cases t with
  | nil => rfl
  | cons d t2 =>
    have hd : ¬(d = ' ' ∨ d = '\t') := by
      simp only [headNotWs, Bool.and_eq_true, decide_eq_true_eq] at hh
      tauto
    rw [stripLFfold_lf_cons, if_neg hd, ht]

theorem stripCRLFfold_joinCRLF (lines : List (List Char))
    (h : ∀ l ∈ lines, pureLine l = true) :
    stripCRLFfold (joinSep (str "\r\n") lines) = joinSep (str "\r\n") lines := by
  induction lines with
  | nil => rfl
  | cons l ls ih =>
    cases ls with
    | nil =>
      exact stripCRLFfold_eq_self l fun c hc => (pureLine_no_crlf (h l (by simp)) c hc).1
    | cons l2 ls2 =>
      have hl : ∀ c ∈ l, c ≠ '\r' :=
        fun c hc => (pureLine_no_crlf (h l (by simp)) c hc).1
      have hsuf : stripCRLFfold (str "\r\n" ++ joinSep (str "\r\n") (l2 :: ls2))
          = str "\r\n" ++ joinSep (str "\r\n") (l2 :: ls2) := by
        show stripCRLFfold ('\r' :: '\n' :: joinSep (str "\r\n") (l2 :: ls2)) = _
        exact stripCRLFfold_crlf_append _
          (headNotWs_joinSep _ _ (by decide) fun x hx => h x (by simp [hx]))
          (ih fun x hx => h x (by simp [hx]))
      calc stripCRLFfold (joinSep (str "\r\n") (l :: l2 :: ls2))
          = stripCRLFfold (l ++ (str "\r\n" ++ joinSep (str "\r\n") (l2 :: ls2))) := by
            show stripCRLFfold (l ++ str "\r\n" ++ joinSep (str "\r\n") (l2 :: ls2)) = _
            rw [List.append_assoc]
        _ = l ++ stripCRLFfold (str "\r\n" ++ joinSep (str "\r\n") (l2 :: ls2)) :=
            stripCRLFfold_append_no_cr _ _ hl
        _ = l ++ (str "\r\n" ++ joinSep (str "\r\n") (l2 :: ls2)) := by rw [hsuf]
        _ = joinSep (str "\r\n") (l :: l2 :: ls2) := by
            show _ = l ++ str "\r\n" ++ joinSep (str "\r\n") (l2 :: ls2)
            rw [List.append_assoc]

theorem stripLFfold_joinCRLF (lines : List (List Char))
    (h : ∀ l ∈ lines, pureLine l = true) :
    stripLFfold (joinSep (str "\r\n") lines) = joinSep (str "\r\n") lines := by
  induction lines with
  | nil => rfl
  | cons l ls ih =>
    cases ls with
    | nil =>
      exact stripLFfold_eq_self l fun c hc => (pureLine_no_crlf (h l (by simp)) c hc).2
    | cons l2 ls2 =>
      have hl : ∀ c ∈ l, c ≠ '\n' :=
        fun c hc => (pureLine_no_crlf (h l (by simp)) c hc).2
      have hsuf : stripLFfold (str "\r\n" ++ joinSep (str "\r\n") (l2 :: ls2))
          = str "\r\n" ++ joinSep (str "\r\n") (l2 :: ls2) := by
        show stripLFfold ('\r' :: '\n' :: joinSep (str "\r\n") (l2 :: ls2)) = _
        rw [stripLFfold_cons_ne '\r' _ (by decide)]
        congr 1
        exact stripLFfold_lf_append _
          (headNotWs_joinSep _ _ (by decide) fun x hx => h x (by simp [hx]))
          (ih fun x hx => h x (by simp [hx]))
      calc stripLFfold (joinSep (str "\r\n") (l :: l2 :: ls2))
          = stripLFfold (l ++ (str "\r\n" ++ joinSep (str "\r\n") (l2 :: ls2))) := by
            show stripLFfold (l ++ str "\r\n" ++ joinSep (str "\r\n") (l2 :: ls2)) = _
            rw [List.append_assoc]
        _ = l ++ stripLFfold (str "\r\n" ++ joinSep (str "\r\n") (l2 :: ls2)) :=
            stripLFfold_append_no_lf _ _ hl
        _ = l ++ (str "\r\n" ++ joinSep (str "\r\n") (l2 :: ls2)) := by rw [hsuf]
        _ = joinSep (str "\r\n") (l :: l2 :: ls2) := by
            show _ = l ++ str "\r\n" ++ joinSep (str "\r\n") (l2 :: ls2)
            rw [List.append_assoc]

theorem splitLines_joinCRLF (lines : List (List Char)) (hne : lines ≠ [])
    (h : ∀ l ∈ lines, pureLine l = true) :
    splitLines (joinSep (str "\r\n") lines) = lines := by
  induction lines with
  | nil => exact absurd rfl hne
  | cons l ls ih =>
    cases ls with
    | nil =>
      have := splitLines_append_pure l [] (pureLine_no_crlf (h l (by simp)))
      simpa [splitLines] using this
    | cons l2 ls2 =>
      have hsplit : splitLines (str "\r\n" ++ joinSep (str "\r\n") (l2 :: ls2))
          = [] :: (l2 :: ls2) := by
        show splitLines ('\r' :: '\n' :: joinSep (str "\r\n") (l2 :: ls2)) = _
        rw [splitLines_crlf, ih (by simp) fun x hx => h x (by simp [hx])]
      calc splitLines (joinSep (str "\r\n") (l :: l2 :: ls2))
          = splitLines (l ++ (str "\r\n" ++ joinSep (str "\r\n") (l2 :: ls2))) := by
            show splitLines (l ++ str "\r\n" ++ joinSep (str "\r\n") (l2 :: ls2)) = _
            rw [List.append_assoc]
        _ = l :: l2 :: ls2 := by
            rw [splitLines_append_pure l _ (pureLine_no_crlf (h l (by simp))), hsplit]
            simp

theorem logicalLines_joinCRLF (lines : List (List Char)) (hne : lines ≠ [])
    (h : ∀ l ∈ lines, pureLine l = true) :
    logicalLines (joinSep (str "\r\n") lines) = lines := by
  unfold logicalLines
  rw [stripCRLFfold_joinCRLF lines h, stripLFfold_joinCRLF lines h,
    splitLines_joinCRLF lines hne h]

theorem stripLFfold_joinLF (lines : List (List Char))
    (h : ∀ l ∈ lines, pureLine l = true) :
    stripLFfold (joinSep (str "\n") lines) = joinSep (str "\n") lines := by
  induction lines with
  | nil => rfl
  | cons l ls ih =>
    cases ls with
    | nil =>
      exact stripLFfold_eq_self l fun c hc => (pureLine_no_crlf (h l (by simp)) c hc).2
    | cons l2 ls2 =>
      have hl : ∀ c ∈ l, c ≠ '\n' :=
        fun c hc => (pureLine_no_crlf (h l (by simp)) c hc).2
      have hsuf : stripLFfold (str "\n" ++ joinSep (str "\n") (l2 :: ls2))
          = str "\n" ++ joinSep (str "\n") (l2 :: ls2) := by
        show stripLFfold ('\n' :: joinSep (str "\n") (l2 :: ls2)) = _
        exact stripLFfold_lf_append _
          (headNotWs_joinSep _ _ (by decide) fun x hx => h x (by simp [hx]))
          (ih fun x hx => h x (by simp [hx]))
      calc stripLFfold (joinSep (str "\n") (l :: l2 :: ls2))
          = stripLFfold (l ++ (str "\n" ++ joinSep (str "\n") (l2 :: ls2))) := by
            show stripLFfold (l ++ str "\n" ++ joinSep (str "\n") (l2 :: ls2)) = _
            rw [List.append_assoc]
        _ = l ++ stripLFfold (str "\n" ++ joinSep (str "\n") (l2 :: ls2)) :=
            stripLFfold_append_no_lf _ _ hl
        _ = l ++ (str "\n" ++ joinSep (str "\n") (l2 :: ls2)) := by rw [hsuf]
        _ = joinSep (str "\n") (l :: l2 :: ls2) := by
            show _ = l ++ str "\n" ++ joinSep (str "\n") (l2 :: ls2)
            rw [List.append_assoc]

theorem splitLines_joinLF (lines : List (List Char)) (hne : lines ≠ [])
    (h : ∀ l ∈ lines, pureLine l = true) :
    splitLines (joinSep (str "\n") lines) = lines := by
  induction lines with
  | nil => exact absurd rfl hne
  | cons l ls ih =>
    cases ls with
    | nil =>
      have := splitLines_append_pure l [] (pureLine_no_crlf (h l (by simp)))
      simpa [splitLines] using this
    | cons l2 ls2 =>
      have hsplit : splitLines (str "\n" ++ joinSep (str "\n") (l2 :: ls2))
          = [] :: (l2 :: ls2) := by
        show splitLines ('\n' :: joinSep (str "\n") (l2 :: ls2)) = _
        rw [splitLines_lf, ih (by simp) fun x hx => h x (by simp [hx])]
      calc splitLines (joinSep (str "\n") (l :: l2 :: ls2))
          = splitLines (l ++ (str "\n" ++ joinSep (str "\n") (l2 :: ls2))) := by
            show splitLines (l ++ str "\n" ++ joinSep (str "\n") (l2 :: ls2)) = _
            rw [List.append_assoc]
        _ = l :: l2 :: ls2 := by
            rw [splitLines_append_pure l _ (pureLine_no_crlf (h l (by simp))), hsplit]
            simp

theorem logicalLines_joinLF (lines : List (List Char)) (hne : lines ≠ [])
    (h : ∀ l ∈ lines, pureLine l = true) :
    logicalLines (joinSep (str "\n") lines) = lines := by
  unfold logicalLines
  have hnocr : ∀ c ∈ joinSep (str "\n") lines, c ≠ '\r' := by
    intro c hc
    rcases mem_joinSep _ _ _ hc with h1 | ⟨l, hl, hcl⟩
    · rw [str_lf] at h1; simp at h1; simp [h1]
    · exact (pureLine_no_crlf (h l hl) c hcl).1
  rw [stripCRLFfold_eq_self _ hnocr, stripLFfold_joinLF lines h,
    splitLines_joinLF lines hne h]

theorem joinCR_no_lf (lines : List (List Char))
    (h : ∀ l ∈ lines, pureLine l = true) :
    ∀ c ∈ joinSep (str "\r") lines, c ≠ '\n' := by
  intro c hc
  rcases mem_joinSep _ _ _ hc with h1 | ⟨l, hl, hcl⟩
  · rw [str_cr] at h1; simp at h1; simp [h1]
  · exact (pureLine_no_crlf (h l hl) c hcl).2

theorem stripCRLFfold_joinCR (lines : List (List Char))
    (h : ∀ l ∈ lines, pureLine l = true) :
    stripCRLFfold (joinSep (str "\r") lines) = joinSep (str "\r") lines := by
  induction lines with
  | nil => rfl
  | cons l ls ih =>
    cases ls with
    | nil =>
      exact stripCRLFfold_eq_self l fun c hc => (pureLine_no_crlf (h l (by simp)) c hc).1
    | cons l2 ls2 =>
      have hl : ∀ c ∈ l, c ≠ '\r' :=
        fun c hc => (pureLine_no_crlf (h l (by simp)) c hc).1
      have hnolf := joinCR_no_lf (l2 :: ls2) fun x hx => h x (by simp [hx])
      have hx : ∀ d rest2, joinSep (str "\r") (l2 :: ls2) ≠ '\n' :: d :: rest2 := by
        intro d rest2 heq
        have : '\n' ∈ joinSep (str "\r") (l2 :: ls2) := by rw [heq]; simp
        exact hnolf '\n' this rfl
      have hsuf : stripCRLFfold (str "\r" ++ joinSep (str "\r") (l2 :: ls2))
          = str "\r" ++ joinSep (str "\r") (l2 :: ls2) := by
        show stripCRLFfold ('\r' :: joinSep (str "\r") (l2 :: ls2))
          = '\r' :: joinSep (str "\r") (l2 :: ls2)
        rw [stripCRLFfold_cons_cr _ hx, ih fun x hx2 => h x (by simp [hx2])]
      calc stripCRLFfold (joinSep (str "\r") (l :: l2 :: ls2))
          = stripCRLFfold (l ++ (str "\r" ++ joinSep (str "\r") (l2 :: ls2))) := by
            show stripCRLFfold (l ++ str "\r" ++ joinSep (str "\r") (l2 :: ls2)) = _
            rw [List.append_assoc]
        _ = l ++ stripCRLFfold (str "\r" ++ joinSep (str "\r") (l2 :: ls2)) :=
            stripCRLFfold_append_no_cr _ _ hl
        _ = l ++ (str "\r" ++ joinSep (str "\r") (l2 :: ls2)) := by rw [hsuf]
        _ = joinSep (str "\r") (l :: l2 :: ls2) := by
            show _ = l ++ str "\r" ++ joinSep (str "\r") (l2 :: ls2)
            rw [List.append_assoc]

theorem splitLines_joinCR (lines : List (List Char)) (hne : lines ≠ [])
    (h : ∀ l ∈ lines, pureLine l = true) :
    splitLines (joinSep (str "\r") lines) = lines := by
  induction lines with
  | nil => exact absurd rfl hne
  | cons l ls ih =>
    cases ls with
    | nil =>
      have := splitLines_append_pure l [] (pureLine_no_crlf (h l (by simp)))
      simpa [splitLines] using this
    | cons l2 ls2 =>
      have hnolf := joinCR_no_lf (l2 :: ls2) fun x hx => h x (by simp [hx])
      have hx : ∀ rest2, joinSep (str "\r") (l2 :: ls2) ≠ '\n' :: rest2 := by
        intro rest2 heq
        have : '\n' ∈ joinSep (str "\r") (l2 :: ls2) := by rw [heq]; simp
        exact hnolf '\n' this rfl
      have hsplit : splitLines (str "\r" ++ joinSep (str "\r") (l2 :: ls2))
          = [] :: (l2 :: ls2) := by
        show splitLines ('\r' :: joinSep (str "\r") (l2 :: ls2)) = [] :: (l2 :: ls2)
        rw [splitLines_cr _ hx, ih (by simp) fun x hx2 => h x (by simp [hx2])]
      calc splitLines (joinSep (str "\r") (l :: l2 :: ls2))
          = splitLines (l ++ (str "\r" ++ joinSep (str "\r") (l2 :: ls2))) := by
            show splitLines (l ++ str "\r" ++ joinSep (str "\r") (l2 :: ls2)) = _
            rw [List.append_assoc]
        _ = l :: l2 :: ls2 := by
            rw [splitLines_append_pure l _ (pureLine_no_crlf (h l (by simp))), hsplit]
            simp

theorem logicalLines_joinCR (lines : List (List Char)) (hne : lines ≠ [])
    (h : ∀ l ∈ lines, pureLine l = true) :
    logicalLines (joinSep (str "\r") lines) = lines := by
  unfold logicalLines
  rw [stripCRLFfold_joinCR lines h,
    stripLFfold_eq_self _ (joinCR_no_lf lines h), splitLines_joinCR lines hne h]

/-!  ## Characterisation of the filter loop on structured documents -/

theorem wfItem_lines {it : DocItem} (h : wfItem it) : wfItemLines it := by
  cases it with
  | plain l => exact h.1
  | block c => exact fun l hl => (h l hl).1

theorem filterStep_begin (ft : List Char) (clean : List Char → List Char)
    (st : FilterState) :
    filterStep ft clean st (str "BEGIN:VEVENT")
      = { st with
          inEvent := true
          cur := [str "BEGIN:VEVENT"]
          summary := []
          sumIdx := none } := by
  unfold filterStep
  rw [if_pos rfl]

theorem filterStep_end (ft : List Char) (clean : List Char → List Char)
    (st : FilterState) :
    filterStep ft clean st (str "END:VEVENT")
      = { st with
          inEvent := false
          cur := []
          out := st.out ++
            (if exclSummary st.summary then []
             else
               match st.sumIdx with
               | some i =>
                 if ft ≠ [] ∧ occursIn ft st.summary = true then
                   jsArraySet (st.cur ++ [str "END:VEVENT"]) i
                     (str "SUMMARY:" ++ clean st.summary)
                 else st.cur ++ [str "END:VEVENT"]
               | none => st.cur ++ [str "END:VEVENT"]) } := by
  unfold filterStep
  rw [if_neg (by decide), if_pos rfl]
  by_cases hexcl : exclSummary st.summary
  · simp [hexcl]
  · simp [hexcl]

theorem filterStep_content (ft : List Char) (clean : List Char → List Char)
    (st : FilterState) (line : List Char) (hb : line ≠ str "BEGIN:VEVENT")
    (he : line ≠ str "END:VEVENT") (hin : st.inEvent = true) :
    filterStep ft clean st line =
      if isPrefixB (str "SUMMARY:") line then
        { st with
          cur := st.cur ++ [line]
          summary := line.drop 8
          sumIdx := some ((st.cur ++ [line]).length - 1) }
      else { st with cur := st.cur ++ [line] } := by
  unfold filterStep
  rw [if_neg hb, if_neg he, if_pos hin]

theorem filterStep_outside (ft : List Char) (clean : List Char → List Char)
    (st : FilterState) (line : List Char) (hb : line ≠ str "BEGIN:VEVENT")
    (he : line ≠ str "END:VEVENT") (hin : st.inEvent = false) :
    filterStep ft clean st line = { st with out := st.out ++ [line] } := by
  unfold filterStep
  rw [if_neg hb, if_neg he, if_neg (by simp [hin])]

theorem foldl_content (ft : List Char) (clean : List Char → List Char)
    (c : List (List Char)) (hc : ∀ l ∈ c, notMarker l) :
    ∀ st : FilterState, st.inEvent = true →
      c.foldl (filterStep ft clean) st
        = { st with
            cur := st.cur ++ c
            sumIdx := (scanSum st.cur.length (st.sumIdx, st.summary) c).1
            summary := (scanSum st.cur.length (st.sumIdx, st.summary) c).2 } := by
  induction c with
  | nil => intro st hin; simp [scanSum]
  | cons l c' ih =>
    intro st hin
    have hm := hc l (by simp)
    have hsub : ∀ x ∈ c', notMarker x := fun x hx => hc x (by simp [hx])
    rw [List.foldl_cons, filterStep_content ft clean st l hm.1 hm.2 hin]
    by_cases hs : isPrefixB (str "SUMMARY:") l = true
    · rw [if_pos hs,
        ih hsub { st with
          cur := st.cur ++ [l]
          summary := l.drop 8
          sumIdx := some ((st.cur ++ [l]).length - 1) } hin]
      simp [scanSum, hs, List.length_append]
    · rw [if_neg hs,
        ih hsub { st with cur := st.cur ++ [l] } hin]
      simp [scanSum, hs, List.length_append]

theorem foldl_renderBlock (ft : List Char) (clean : List Char → List Char)
    (c : List (List Char)) (hc : ∀ l ∈ c, notMarker l)
    (st : FilterState) (hin : st.inEvent = false) (hcur : st.cur = []) :
    (renderItem (.block c)).foldl (filterStep ft clean) st
      = { st with
          inEvent := false
          cur := []
          summary := (scanSum 1 (none, []) c).2
          sumIdx := (scanSum 1 (none, []) c).1
          out := st.out ++ emitBlock ft clean c } := by
  show (str "BEGIN:VEVENT" :: (c ++ [str "END:VEVENT"])).foldl (filterStep ft clean) st = _
  rw [List.foldl_cons, filterStep_begin]
  rw [show c ++ [str "END:VEVENT"] = c ++ [str "END:VEVENT"] from rfl]
  rw [List.foldl_append]
  rw [foldl_content ft clean c hc _ rfl]
  rw [List.foldl_cons]
  rw [filterStep_end]
  simp only [List.foldl_nil, emitBlock]
  rfl

theorem renderDoc_cons (it : DocItem) (its : List DocItem) :
    renderDoc (it :: its) = renderItem it ++ renderDoc its := by
  simp [renderDoc]

theorem foldl_renderDoc (ft : List Char) (clean : List Char → List Char)
    (items : List DocItem) (h : ∀ it ∈ items, wfItemLines it) :
    ∀ st : FilterState, st.inEvent = false → st.cur = [] →
      ∃ sum idx,
        (renderDoc items).foldl (filterStep ft clean) st
          = { inEvent := false
              cur := []
              summary := sum
              sumIdx := idx
              out := st.out ++ (items.map (emitItem ft clean)).flatten } := by
  induction items with
  | nil =>
    intro st hin hcur
    refine ⟨st.summary, st.sumIdx, ?_⟩
    cases st
    simp_all [renderDoc]
  | cons it its ih =>
    intro st hin hcur
    rw [renderDoc_cons, List.foldl_append]
    cases it with
    | plain l =>
      have hm : notMarker l := h (DocItem.plain l) (by simp)
      rw [show renderItem (.plain l) = [l] from rfl, List.foldl_cons,
        filterStep_outside ft clean st l hm.1 hm.2 hin, List.foldl_nil]
      obtain ⟨sum, idx, heq⟩ := ih (fun x hx => h x (by simp [hx]))
        { st with out := st.out ++ [l] } hin hcur
      refine ⟨sum, idx, ?_⟩
      rw [heq]
      simp [emitItem]
    | block c =>
      have hm : ∀ l ∈ c, notMarker l := h (DocItem.block c) (by simp)
      rw [foldl_renderBlock ft clean c hm st hin hcur]
      obtain ⟨sum, idx, heq⟩ := ih (fun x hx => h x (by simp [hx]))
        { st with
          inEvent := false
          cur := []
          summary := (scanSum 1 (none, []) c).2
          sumIdx := (scanSum 1 (none, []) c).1
          out := st.out ++ emitBlock ft clean c } rfl rfl
      refine ⟨sum, idx, ?_⟩
      rw [heq]
      simp [emitItem]

theorem filterLoop_renderDoc (ft : List Char) (clean : List Char → List Char)
    (items : List DocItem) (h : ∀ it ∈ items, wfItemLines it) :
    filterLoop ft clean (renderDoc items) = (items.map (emitItem ft clean)).flatten := by
  obtain ⟨sum, idx, heq⟩ := foldl_renderDoc ft clean items h initState rfl rfl
  unfold filterLoop
  rw [heq]
  simp [initState]

/-!  ## Lemmas about summary tracking and block emission -/

theorem scanSum_append (p : Nat) (acc : Option Nat × List Char)
    (c1 c2 : List (List Char)) :
    scanSum p acc (c1 ++ c2) = scanSum (p + c1.length) (scanSum p acc c1) c2 := by
  induction c1 generalizing p acc with
  | nil => simp [scanSum]
  | cons l ls ih =>
    rw [List.cons_append]
    show scanSum (p + 1) _ (ls ++ c2) = _
    rw [ih]
    have harith : p + 1 + ls.length = p + (ls.length + 1) := by omega
    rw [harith]
    rfl

theorem scanSum_no_summary (p : Nat) (acc : Option Nat × List Char)
    (c : List (List Char)) (h : ∀ l ∈ c, isPrefixB (str "SUMMARY:") l ≠ true) :
    scanSum p acc c = acc := by
  induction c generalizing p acc with
  | nil => rfl
  | cons l ls ih =>
    show scanSum (p + 1) _ ls = acc
    rw [if_neg (h l (by simp))]
    exact ih _ _ fun x hx => h x (by simp [hx])

theorem scanSum_last (p : Nat) (acc : Option Nat × List Char)
    (c1 : List (List Char)) (l : List Char) (c2 : List (List Char))
    (hl : isPrefixB (str "SUMMARY:") l = true)
    (h2 : ∀ x ∈ c2, isPrefixB (str "SUMMARY:") x ≠ true) :
    scanSum p acc (c1 ++ l :: c2) = (some (p + c1.length), l.drop 8) := by
  rw [scanSum_append]
  show scanSum (p + c1.length + 1) _ c2 = _
  rw [if_pos hl]
  exact scanSum_no_summary _ _ _ h2

theorem scanSum_some_decomp (c : List (List Char)) (i : Nat) (s : List Char)
    (h : scanSum 1 (none, []) c = (some i, s)) :
    ∃ c1 l c2, c = c1 ++ l :: c2 ∧ i = c1.length + 1 ∧
      isPrefixB (str "SUMMARY:") l = true ∧ l.drop 8 = s ∧
      ∀ x ∈ c2, isPrefixB (str "SUMMARY:") x ≠ true := by
  induction c using List.reverseRecOn with
  | nil => simp [scanSum] at h
  | append_singleton c l ih =>
    rw [scanSum_append] at h
    by_cases hl : isPrefixB (str "SUMMARY:") l = true
    · have hstep : scanSum (1 + c.length) (scanSum 1 (none, []) c) [l]
          = (some (1 + c.length), l.drop 8) := by
        show scanSum (1 + c.length + 1) _ [] = _
        rw [if_pos hl]
        rfl
      rw [hstep] at h
      injection h with h1 h2
      injection h1 with h1
      refine ⟨c, l, [], rfl, by omega, hl, h2, by simp⟩
    · have hstep : scanSum (1 + c.length) (scanSum 1 (none, []) c) [l]
          = scanSum 1 (none, []) c := by
        show scanSum (1 + c.length + 1) _ [] = _
        rw [if_neg hl]
        rfl
      rw [hstep] at h
      obtain ⟨c1, l2, c2, hc, hi, hpre, hdrop, hnone⟩ := ih h
      refine ⟨c1, l2, c2 ++ [l], by simp [hc], hi, hpre, hdrop, ?_⟩
      intro x hx
      rcases List.mem_append.mp hx with h1 | h2
      · exact hnone x h1
      · simp at h2
        subst h2
        exact hl

theorem exclSummary_nil : ¬ exclSummary [] := by decide

theorem summaryLine_notMarker (v : List Char) : notMarker (str "SUMMARY:" ++ v) := by
  constructor
  · intro h
    have h2 : ('S' :: (str "UMMARY:" ++ v)) = ('B' :: str "EGIN:VEVENT") := h
    injection h2 with h1 _
    exact absurd h1 (by decide)
  · intro h
    have h2 : ('S' :: (str "UMMARY:" ++ v)) = ('E' :: str "ND:VEVENT") := h
    injection h2 with h1 _
    exact absurd h1 (by decide)

theorem summaryLine_pure (v : List Char) (hv : ∀ c ∈ v, c ≠ '\r' ∧ c ≠ '\n') :
    pureLine (str "SUMMARY:" ++ v) = true := by
  unfold pureLine
  rw [Bool.and_eq_true]
  constructor
  · rw [List.all_append, Bool.and_eq_true]
    constructor
    · decide
    · rw [List.all_eq_true]
      intro c hc
      have := hv c hc
      simp [this.1, this.2]
  · rfl

theorem set_append_mid {α : Type} (a : List α) (b : α) (c : List α) (v : α) :
    (a ++ b :: c).set a.length v = a ++ v :: c := by
  induction a with
  | nil => rfl
  | cons x a' ih => simp [List.set, ih]

theorem emitBlock_excl (ft : List Char) (clean : List Char → List Char)
    (c : List (List Char)) (h : exclSummary (scanSum 1 (none, []) c).2) :
    emitBlock ft clean c = [] := by
  unfold emitBlock
  rw [if_pos h]

theorem emitBlock_no_summary (ft : List Char) (clean : List Char → List Char)
    (c : List (List Char)) (h : ∀ l ∈ c, isPrefixB (str "SUMMARY:") l ≠ true) :
    emitBlock ft clean c = str "BEGIN:VEVENT" :: c ++ [str "END:VEVENT"] := by
  unfold emitBlock
  rw [scanSum_no_summary 1 (none, []) c h]
  rw [if_neg exclSummary_nil]

theorem emitBlock_last_summary (ft : List Char) (clean : List Char → List Char)
    (c1 : List (List Char)) (l : List Char) (c2 : List (List Char))
    (hl : isPrefixB (str "SUMMARY:") l = true)
    (h2 : ∀ x ∈ c2, isPrefixB (str "SUMMARY:") x ≠ true)
    (hex : ¬ exclSummary (l.drop 8)) :
    emitBlock ft clean (c1 ++ l :: c2)
      = if ft ≠ [] ∧ occursIn ft (l.drop 8) = true then
          str "BEGIN:VEVENT" :: (c1 ++ (str "SUMMARY:" ++ clean (l.drop 8)) :: c2)
            ++ [str "END:VEVENT"]
        else str "BEGIN:VEVENT" :: (c1 ++ l :: c2) ++ [str "END:VEVENT"] := by
  have hscan := scanSum_last 1 (none, []) c1 l c2 hl h2
  unfold emitBlock
  rw [hscan]
  dsimp only
  rw [if_neg hex]
  by_cases hcond : ft ≠ [] ∧ occursIn ft (l.drop 8) = true
  · rw [if_pos hcond, if_pos hcond]
    have hlen : 1 + c1.length
        < (str "BEGIN:VEVENT" :: (c1 ++ l :: c2) ++ [str "END:VEVENT"]).length := by
      simp [List.length_append]
      omega
    unfold jsArraySet
    rw [if_pos hlen]
    have hshape : str "BEGIN:VEVENT" :: (c1 ++ l :: c2) ++ [str "END:VEVENT"]
        = (str "BEGIN:VEVENT" :: c1) ++ l :: (c2 ++ [str "END:VEVENT"]) := by
      simp
    rw [hshape]
    have hlen2 : 1 + c1.length = (str "BEGIN:VEVENT" :: c1).length := by
      simp [Nat.add_comm]
    rw [hlen2, set_append_mid]
    simp
  · rw [if_neg hcond, if_neg hcond]

/-!  ## Loop-state lemmas for nested begin markers and unterminated blocks -/

theorem foldl_inEvent_no_end (ft : List Char) (clean : List Char → List Char)
    (M : List (List Char)) (hM : ∀ l ∈ M, l ≠ str "END:VEVENT") :
    ∀ st : FilterState, st.inEvent = true →
      (M.foldl (filterStep ft clean) st).inEvent = true ∧
      (M.foldl (filterStep ft clean) st).out = st.out := by
  induction M with
  | nil => intro st hin; exact ⟨hin, rfl⟩
  | cons l ls ih =>
    intro st hin
    rw [List.foldl_cons]
    by_cases hb : l = str "BEGIN:VEVENT"
    · subst hb
      rw [filterStep_begin]
      exact ih (fun x hx => hM x (by simp [hx])) _ rfl
    · have he := hM l (by simp)
      rw [filterStep_content ft clean st l hb he hin]
      by_cases hs : isPrefixB (str "SUMMARY:") l = true
      · rw [if_pos hs]
        exact ih (fun x hx => hM x (by simp [hx])) _ hin
      · rw [if_neg hs]
        exact ih (fun x hx => hM x (by simp [hx])) _ hin

theorem filterLoop_trailing_begin (ft : List Char) (clean : List Char → List Char)
    (L M : List (List Char)) (hM : ∀ l ∈ M, l ≠ str "END:VEVENT") :
    filterLoop ft clean (L ++ str "BEGIN:VEVENT" :: M) = filterLoop ft clean L := by
  unfold filterLoop
  rw [List.foldl_append, List.foldl_cons, filterStep_begin]
  exact (foldl_inEvent_no_end ft clean M hM _ rfl).2

theorem filterLoop_nested_begin (ft : List Char) (clean : List Char → List Char)
    (M R : List (List Char)) (hM : ∀ l ∈ M, l ≠ str "END:VEVENT") :
    filterLoop ft clean (str "BEGIN:VEVENT" :: M ++ str "BEGIN:VEVENT" :: R)
      = filterLoop ft clean (str "BEGIN:VEVENT" :: R) := by
  unfold filterLoop
  conv_lhs => rw [List.foldl_append, List.foldl_cons, List.foldl_cons]
  conv_rhs => rw [List.foldl_cons]
  have h2 := foldl_inEvent_no_end ft clean M hM
    (filterStep ft clean initState (str "BEGIN:VEVENT")) (by rw [filterStep_begin])
  have hstep : filterStep ft clean
      (M.foldl (filterStep ft clean)
        (filterStep ft clean initState (str "BEGIN:VEVENT"))) (str "BEGIN:VEVENT")
      = filterStep ft clean initState (str "BEGIN:VEVENT") := by
    conv_lhs => rw [filterStep_begin]
    conv_rhs => rw [filterStep_begin]
    show FilterState.mk true [str "BEGIN:VEVENT"] [] none
        (M.foldl (filterStep ft clean)
          (filterStep ft clean initState (str "BEGIN:VEVENT"))).out
      = FilterState.mk true [str "BEGIN:VEVENT"] [] none
        (filterStep ft clean initState (str "BEGIN:VEVENT")).out
    rw [h2.2]
  rw [hstep]

/-!  ## The balanced-markers invariant -/

theorem closedBegins_append (a b : List (List Char)) (ha : closedBegins a = true)
    (hb : closedBegins b = true) : closedBegins (a ++ b) = true := by
  induction a with
  | nil => simpa using hb
  | cons l ls ih =>
    simp only [closedBegins, Bool.and_eq_true] at ha
    rw [List.cons_append]
    show ((if l = str "BEGIN:VEVENT" then decide (str "END:VEVENT" ∈ ls ++ b) else true)
      && closedBegins (ls ++ b)) = true
    rw [Bool.and_eq_true]
    refine ⟨?_, ih ha.2⟩
    by_cases hB : l = str "BEGIN:VEVENT"
    · rw [if_pos hB]
      rw [if_pos hB] at ha
      have := of_decide_eq_true ha.1
      simp [this]
    · rw [if_neg hB]

theorem closedBegins_snoc_end (xs : List (List Char)) :
    closedBegins (xs ++ [str "END:VEVENT"]) = true := by
  induction xs with
  | nil => decide
  | cons l ls ih =>
    rw [List.cons_append]
    show ((if l = str "BEGIN:VEVENT"
        then decide (str "END:VEVENT" ∈ ls ++ [str "END:VEVENT"]) else true)
      && closedBegins (ls ++ [str "END:VEVENT"])) = true
    rw [Bool.and_eq_true]
    refine ⟨?_, ih⟩
    by_cases hB : l = str "BEGIN:VEVENT"
    · rw [if_pos hB]
      simp
    · rw [if_neg hB]

theorem closedBegins_no_begin (xs : List (List Char))
    (h : ∀ l ∈ xs, l ≠ str "BEGIN:VEVENT") : closedBegins xs = true := by
  induction xs with
  | nil => rfl
  | cons l ls ih =>
    show ((if l = str "BEGIN:VEVENT" then _ else true) && closedBegins ls) = true
    rw [if_neg (h l (by simp)), Bool.and_eq_true]
    exact ⟨rfl, ih fun x hx => h x (by simp [hx])⟩

theorem closedBegins_single (l : List Char) (h : l ≠ str "BEGIN:VEVENT") :
    closedBegins [l] = true :=
  closedBegins_no_begin [l] (by simpa using h)

theorem loopInv_step (ft : List Char) (clean : List Char → List Char)
    (st : FilterState) (line : List Char) (h : loopInv st) :
    loopInv (filterStep ft clean st line) := by
  obtain ⟨h1, h2, h3, h4⟩ := h
  unfold loopInv
  by_cases hb : line = str "BEGIN:VEVENT"
  · subst hb
    rw [filterStep_begin]
    refine ⟨?_, ?_, ?_, ?_⟩
    · intro hc
      exact nomatch hc
    · intro _
      simp
    · intro i hi
      exact nomatch hi
    · exact h4
  · by_cases he : line = str "END:VEVENT"
    · subst he
      rw [filterStep_end]
      refine ⟨?_, ?_, ?_, ?_⟩
      · intro _
        rfl
      · intro hc
        exact nomatch hc
      · intro i hi
        exact ⟨(h3 i hi).1, fun hc => nomatch hc⟩
      · show closedBegins (st.out ++ _) = true
        apply closedBegins_append _ _ h4
        by_cases hexcl : exclSummary st.summary
        · rw [if_pos hexcl]
          rfl
        · rw [if_neg hexcl]
          rcases hidx : st.sumIdx with _ | i
          · exact closedBegins_snoc_end st.cur
          · dsimp only
            by_cases hcond : ft ≠ [] ∧ occursIn ft st.summary = true
            · rw [if_pos hcond]
              obtain ⟨hge, hlt⟩ := h3 i hidx
              rcases hie : st.inEvent with _ | _
              · have hcur : st.cur = [] := h1 hie
                rw [hcur]
                unfold jsArraySet
                rw [if_neg (by simp; omega)]
                apply closedBegins_no_begin
                intro x hx
                rcases List.mem_append.mp hx with hx1 | hx2
                · rcases List.mem_append.mp hx1 with hx3 | hx4
                  · simp at hx3
                    subst hx3
                    decide
                  · have := List.eq_of_mem_replicate hx4
                    subst this
                    decide
                · simp at hx2
                  subst hx2
                  exact (summaryLine_notMarker _).1
              · have hilt : i < st.cur.length := hlt hie
                unfold jsArraySet
                rw [if_pos (by simp [List.length_append]; omega)]
                rw [List.set_append_left i _ hilt]
                exact closedBegins_snoc_end _
            · rw [if_neg hcond]
              exact closedBegins_snoc_end st.cur
    · rcases hie : st.inEvent with _ | _
      · rw [filterStep_outside ft clean st line hb he hie]
        refine ⟨?_, ?_, ?_, ?_⟩
        · intro _
          exact h1 hie
        · intro hc
          exact absurd (hie.symm.trans hc) (by decide)
        · exact h3
        · exact closedBegins_append _ _ h4 (closedBegins_single line hb)
      · rw [filterStep_content ft clean st line hb he hie]
        by_cases hs : isPrefixB (str "SUMMARY:") line = true
        · rw [if_pos hs]
          refine ⟨?_, ?_, ?_, ?_⟩
          · intro hc
            exact absurd (hie.symm.trans hc) (by decide)
          · intro _
            simp
          · intro i hi
            injection hi with hi
            subst hi
            have hpos : 0 < st.cur.length := List.length_pos.mpr (h2 hie)
            refine ⟨?_, fun _ => ?_⟩
            · simp [List.length_append]
              omega
            · simp [List.length_append]
          · exact h4
        · rw [if_neg hs]
          refine ⟨?_, ?_, ?_, ?_⟩
          · intro hc
            exact absurd (hie.symm.trans hc) (by decide)
          · intro _
            simp
          · intro i hi
            obtain ⟨hge, hlt⟩ := h3 i hi
            refine ⟨hge, fun _ => ?_⟩
            have := hlt hie
            simp [List.length_append]
            omega
          · exact h4

theorem loopInv_foldl (ft : List Char) (clean : List Char → List Char)
    (lines : List (List Char)) :
    ∀ st : FilterState, loopInv st → loopInv (lines.foldl (filterStep ft clean) st) := by
  induction lines with
  | nil => intro st h; exact h
  | cons l ls ih =>
    intro st h
    rw [List.foldl_cons]
    exact ih _ (loopInv_step ft clean st l h)

theorem filterLoop_closedBegins (ft : List Char) (clean : List Char → List Char)
    (lines : List (List Char)) : closedBegins (filterLoop ft clean lines) = true := by
  have hinit : loopInv initState := by
    unfold loopInv
    refine ⟨fun _ => rfl, ?_, ?_, rfl⟩
    · intro hc
      exact nomatch hc
    · intro i hi
      exact nomatch hi
  exact (loopInv_foldl ft clean lines initState hinit).2.2.2

/-!  ## Further helper lemmas -/

theorem isPrefixB_refl (t : List Char) : isPrefixB t t = true := by
  simpa using isPrefixB_append_self t []

theorem occursIn_self (t : List Char) : occursIn t t = true :=
  occursIn_of_isPrefixB t t (isPrefixB_refl t)

theorem occursIn_ne_nil (t s : List Char) (ht : t ≠ []) (h : occursIn t s = true) :
    s ≠ [] := by
  intro hs
  subst hs
  cases t with
  | nil => exact ht rfl
  | cons c cs => cases h

theorem splitLines_pure (x : List Char) (hx : ∀ c ∈ x, c ≠ '\r' ∧ c ≠ '\n') :
    splitLines x = [x] := by
  have := splitLines_append_pure x [] hx
  simpa [splitLines] using this

theorem foldl_chunks (evts : List JsonEvt) (acc : List Char) :
    evts.foldl (fun a evt => a ++ icalEvtChunk evt) acc
      = acc ++ (evts.map icalEvtChunk).flatten := by
  induction evts generalizing acc with
  | nil => simp
  | cons e es ih =>
    rw [List.foldl_cons, ih]
    simp [List.append_assoc]

theorem filterIcalCore_empty (ft : List Char) (clean : List Char → List Char) :
    filterIcalCore ft clean [] = [] := rfl

theorem renderDoc_pure (items : List DocItem) (hw : wfDoc items) :
    ∀ l ∈ renderDoc items, pureLine l = true := by
  intro l hl
  rw [renderDoc, List.mem_flatten] at hl
  obtain ⟨ls, hls, hl⟩ := hl
  rw [List.mem_map] at hls
  obtain ⟨it, hit, hren⟩ := hls
  subst hren
  have hwit := hw it hit
  cases it with
  | plain x =>
    simp [renderItem] at hl
    subst hl
    exact hwit.2
  | block c =>
    have hl2 : l ∈ str "BEGIN:VEVENT" :: (c ++ [str "END:VEVENT"]) := hl
    rcases List.mem_cons.mp hl2 with h1 | h2
    · subst h1
      decide
    · rcases List.mem_append.mp h2 with h3 | h4
      · exact (hwit l h3).2
      · have h5 := List.mem_singleton.mp h4
        subst h5
        decide

theorem renderDoc_ne_nil (items : List DocItem) (hne : items ≠ []) :
    renderDoc items ≠ [] := by
  cases items with
  | nil => exact absurd rfl hne
  | cons it its =>
    rw [renderDoc_cons]
    cases it with
    | plain l => simp [renderItem]
    | block c => simp [renderItem]

theorem wfDoc_append_left {a b : List DocItem} (h : wfDoc (a ++ b)) : wfDoc a :=
  fun it hit => h it (by simp [hit])

theorem wfDoc_append_right {a b : List DocItem} (h : wfDoc (a ++ b)) : wfDoc b :=
  fun it hit => h it (by simp [hit])

theorem wfDoc_of_mid {pre post : List DocItem} {x : DocItem}
    (h : wfDoc (pre ++ x :: post)) : wfDoc (pre ++ post) := by
  intro it hit
  rcases List.mem_append.mp hit with h1 | h2
  · exact h it (by simp [h1])
  · exact h it (by simp [h2])

theorem filterIcalCore_renderDoc (ft : List Char) (clean : List Char → List Char)
    (items : List DocItem) (hw : wfDoc items) :
    filterIcalCore ft clean (joinSep (str "\r\n") (renderDoc items))
      = joinSep (str "\r\n") ((items.map (emitItem ft clean)).flatten) := by
  cases hitems : items with
  | nil => rfl
  | cons it its =>
    rw [← hitems]
    unfold filterIcalCore
    rw [logicalLines_joinCRLF _ (renderDoc_ne_nil items (by simp [hitems]))
      (renderDoc_pure items hw)]
    rw [filterLoop_renderDoc ft clean items fun x hx => wfItem_lines (hw x hx)]

theorem filterIcalCore_drop_excluded (ft : List Char) (clean : List Char → List Char)
    (pre post : List DocItem) (c : List (List Char))
    (hw : wfDoc (pre ++ DocItem.block c :: post))
    (hex : exclSummary (scanSum 1 (none, []) c).2) :
    filterIcalCore ft clean
      (joinSep (str "\r\n") (renderDoc (pre ++ DocItem.block c :: post)))
      = filterIcalCore ft clean (joinSep (str "\r\n") (renderDoc (pre ++ post))) := by
  rw [filterIcalCore_renderDoc ft clean _ hw,
    filterIcalCore_renderDoc ft clean _ (wfDoc_of_mid hw)]
  simp [emitItem, emitBlock_excl ft clean c hex]

theorem jsonEventsToIcal_drop_excluded (pre post : List JsonEvt) (evt : JsonEvt)
    (nm : List Char)
    (hex : ∃ ex ∈ EXCLUDE_FILTERS, evt.title ≠ [] ∧ occursIn ex evt.title = true) :
    jsonEventsToIcal (pre ++ evt :: post) nm = jsonEventsToIcal (pre ++ post) nm := by
  unfold jsonEventsToIcal
  dsimp only
  rw [foldl_chunks, foldl_chunks]
  have hchunk : icalEvtChunk evt = [] := by
    unfold icalEvtChunk
    rw [if_pos hex]
  simp [hchunk]

theorem fetchFromIcalC_fail (url : List Char) (resp : Option HttpResp)
    (filename : List Char) (h : (fetchFromIcalC url resp filename).1 = false) :
    (fetchFromIcalC url resp filename).2 = none := by
  by_cases hu : url = []
  · simp [fetchFromIcalC, hu]
  · cases resp with
    | none => simp [fetchFromIcalC, hu]
    | some r =>
      by_cases ho : r.ok = true
      · simp [fetchFromIcalC, hu, ho] at h
      · simp [fetchFromIcalC, hu, ho]

/-!  ## Idempotence of the filter pass on well-formed documents -/

theorem processItem_plain (ft : List Char) (clean : List Char → List Char)
    (l : List Char) :
    processItem ft clean (DocItem.plain l) = some (DocItem.plain l) := rfl

theorem processItem_block (ft : List Char) (clean : List Char → List Char)
    (c : List (List Char)) :
    processItem ft clean (DocItem.block c)
      = if exclSummary (scanSum 1 (none, []) c).2 then none
        else some (DocItem.block (rewriteContent ft clean c)) := rfl

theorem scanSum_fst_some (p j : Nat) (s0 : List Char) (c : List (List Char)) :
    ∃ k s, scanSum p (some j, s0) c = (some k, s) := by
  induction c generalizing p j s0 with
  | nil => exact ⟨j, s0, rfl⟩
  | cons l ls ih =>
    show ∃ k s, scanSum (p + 1)
      (if isPrefixB (str "SUMMARY:") l then (some p, l.drop 8) else (some j, s0)) ls
      = (some k, s)
    by_cases hl : isPrefixB (str "SUMMARY:") l = true
    · rw [if_pos hl]
      exact ih (p + 1) p (l.drop 8)
    · rw [if_neg hl]
      exact ih (p + 1) j s0

theorem scanSum_rewrite (c1 c2 : List (List Char)) (v : List Char)
    (hnone : ∀ x ∈ c2, isPrefixB (str "SUMMARY:") x ≠ true) :
    scanSum 1 (none, []) (c1 ++ (str "SUMMARY:" ++ v) :: c2)
      = (some (c1.length + 1), v) := by
  rw [scanSum_last 1 (none, []) c1 (str "SUMMARY:" ++ v) c2
    (isPrefixB_append_self _ _) hnone]
  have hdrop8 : (str "SUMMARY:" ++ v).drop 8 = v := by
    have hlen : (str "SUMMARY:").length = 8 := rfl
    rw [← hlen, List.drop_left]
  rw [hdrop8, Nat.add_comm 1 c1.length]

theorem emitBlock_eq_render (ft : List Char) (clean : List Char → List Char)
    (c : List (List Char)) (hex : ¬ exclSummary (scanSum 1 (none, []) c).2) :
    emitBlock ft clean c = renderItem (.block (rewriteContent ft clean c)) := by
  rcases hscan : scanSum 1 (none, []) c with ⟨idx, sum⟩
  rcases idx with _ | i
  · have hrw : rewriteContent ft clean c = c := by
      unfold rewriteContent
      rw [hscan]
    rw [hrw]
    unfold emitBlock
    rw [if_neg hex, hscan]
    dsimp only
    rfl
  · obtain ⟨c1, l0, c2, hceq, hi, hpre, hdrop, hnone⟩ := scanSum_some_decomp c i sum hscan
    have hexs : ¬ exclSummary sum := by
      have h2 := hex
      rw [hscan] at h2
      exact h2
    have hexd : ¬ exclSummary (l0.drop 8) := by
      rw [hdrop]
      exact hexs
    have hemit := emitBlock_last_summary ft clean c1 l0 c2 hpre hnone hexd
    rw [hdrop] at hemit
    by_cases hcond : ft ≠ [] ∧ occursIn ft sum = true
    · rw [if_pos hcond] at hemit
      have hset : c.set (i - 1) (str "SUMMARY:" ++ clean sum)
          = c1 ++ (str "SUMMARY:" ++ clean sum) :: c2 := by
        rw [hceq, show i - 1 = c1.length from by omega, set_append_mid]
      have hrc : rewriteContent ft clean c
          = c1 ++ (str "SUMMARY:" ++ clean sum) :: c2 := by
        unfold rewriteContent
        rw [hscan]
        dsimp only
        rw [if_pos hcond, hset]
      rw [hrc, hceq, hemit]
      rfl
    · rw [if_neg hcond] at hemit
      have hrc : rewriteContent ft clean c = c := by
        unfold rewriteContent
        rw [hscan]
        dsimp only
        rw [if_neg hcond]
      rw [hrc, hceq, hemit]
      rfl

theorem emit_flatten_eq_render (ft : List Char) (clean : List Char → List Char)
    (items : List DocItem) :
    (items.map (emitItem ft clean)).flatten
      = renderDoc (processDoc ft clean items) := by
  induction items with
  | nil => rfl
  | cons it its ih =>
    rw [List.map_cons, List.flatten_cons, ih]
    cases it with
    | plain l =>
      have hpd : processDoc ft clean (DocItem.plain l :: its)
          = DocItem.plain l :: processDoc ft clean its :=
        List.filterMap_cons_some (processItem_plain ft clean l)
      rw [hpd, renderDoc_cons]
      rfl
    | block c =>
      by_cases hex : exclSummary (scanSum 1 (none, []) c).2
      · have hpi : processItem ft clean (DocItem.block c) = none := by
          rw [processItem_block, if_pos hex]
        have hpd : processDoc ft clean (DocItem.block c :: its)
            = processDoc ft clean its :=
          List.filterMap_cons_none hpi
        rw [hpd]
        show emitBlock ft clean c ++ renderDoc (processDoc ft clean its) = _
        rw [emitBlock_excl ft clean c hex]
        rfl
      · have hpi : processItem ft clean (DocItem.block c)
            = some (DocItem.block (rewriteContent ft clean c)) := by
          rw [processItem_block, if_neg hex]
        have hpd : processDoc ft clean (DocItem.block c :: its)
            = DocItem.block (rewriteContent ft clean c) :: processDoc ft clean its :=
          List.filterMap_cons_some hpi
        rw [hpd, renderDoc_cons]
        show emitBlock ft clean c ++ _ = _
        rw [emitBlock_eq_render ft clean c hex]

theorem rewriteContent_wf (ft : List Char) (clean : List Char → List Char)
    (c : List (List Char)) (hw : ∀ l ∈ c, notMarker l ∧ pureLine l = true)
    (Hpure : ∀ s, (∀ ch ∈ s, ch ≠ '\r' ∧ ch ≠ '\n') →
      ∀ ch ∈ clean s, ch ≠ '\r' ∧ ch ≠ '\n') :
    ∀ l ∈ rewriteContent ft clean c, notMarker l ∧ pureLine l = true := by
  rcases hscan : scanSum 1 (none, []) c with ⟨idx, sum⟩
  rcases idx with _ | i
  · have hrw : rewriteContent ft clean c = c := by
      unfold rewriteContent
      rw [hscan]
    rw [hrw]
    exact hw
  · obtain ⟨c1, l0, c2, hceq, hi, hpre, hdrop, hnone⟩ := scanSum_some_decomp c i sum hscan
    by_cases hcond : ft ≠ [] ∧ occursIn ft sum = true
    · have hsum : ∀ ch ∈ sum, ch ≠ '\r' ∧ ch ≠ '\n' := by
        intro ch hch
        rw [← hdrop] at hch
        have hl0 : l0 ∈ c := by
          rw [hceq]
          simp
        exact pureLine_no_crlf (hw l0 hl0).2 ch (List.mem_of_mem_drop hch)
      have hset : c.set (i - 1) (str "SUMMARY:" ++ clean sum)
          = c1 ++ (str "SUMMARY:" ++ clean sum) :: c2 := by
        rw [hceq, show i - 1 = c1.length from by omega, set_append_mid]
      have hrw : rewriteContent ft clean c
          = c1 ++ (str "SUMMARY:" ++ clean sum) :: c2 := by
        unfold rewriteContent
        rw [hscan]
        dsimp only
        rw [if_pos hcond, hset]
      rw [hrw]
      intro l hl
      rcases List.mem_append.mp hl with h1 | h2
      · exact hw l (by rw [hceq]; exact List.mem_append.mpr (Or.inl h1))
      · rcases List.mem_cons.mp h2 with h3 | h4
        · rw [h3]
          exact ⟨summaryLine_notMarker _, summaryLine_pure _ (Hpure sum hsum)⟩
        · exact hw l (by
            rw [hceq]
            exact List.mem_append.mpr (Or.inr (List.mem_cons.mpr (Or.inr h4))))
    · have hrw : rewriteContent ft clean c = c := by
        unfold rewriteContent
        rw [hscan]
        dsimp only
        rw [if_neg hcond]
      rw [hrw]
      exact hw

theorem processDoc_wf (ft : List Char) (clean : List Char → List Char)
    (items : List DocItem) (hw : wfDoc items)
    (Hpure : ∀ s, (∀ ch ∈ s, ch ≠ '\r' ∧ ch ≠ '\n') →
      ∀ ch ∈ clean s, ch ≠ '\r' ∧ ch ≠ '\n') :
    wfDoc (processDoc ft clean items) := by
  intro it hit
  unfold processDoc at hit
  obtain ⟨it0, hit0, hproc⟩ := List.mem_filterMap.mp hit
  have hw0 := hw it0 hit0
  cases it0 with
  | plain l =>
    rw [processItem_plain] at hproc
    injection hproc with hproc
    rw [← hproc]
    exact hw0
  | block c =>
    by_cases hex : exclSummary (scanSum 1 (none, []) c).2
    · rw [processItem_block, if_pos hex] at hproc
      cases hproc
    · rw [processItem_block, if_neg hex] at hproc
      injection hproc with hproc
      rw [← hproc]
      exact rewriteContent_wf ft clean c hw0 Hpure

theorem processItem_rewrite_idem (ft : List Char) (clean : List Char → List Char)
    (c : List (List Char)) (hex : ¬ exclSummary (scanSum 1 (none, []) c).2)
    (Hexc : ∀ s, ¬ exclSummary s → ¬ exclSummary (clean s))
    (Hidem : ∀ s, clean (clean s) = clean s) :
    processItem ft clean (DocItem.block (rewriteContent ft clean c))
      = some (DocItem.block (rewriteContent ft clean c)) := by
  rcases hscan : scanSum 1 (none, []) c with ⟨idx, sum⟩
  rcases idx with _ | i
  · have hrw : rewriteContent ft clean c = c := by
      unfold rewriteContent
      rw [hscan]
    rw [hrw, processItem_block, if_neg hex, hrw]
  · obtain ⟨c1, l0, c2, hceq, hi, hpre, hdrop, hnone⟩ := scanSum_some_decomp c i sum hscan
    have hexs : ¬ exclSummary sum := by
      have h2 := hex
      rw [hscan] at h2
      exact h2
    by_cases hcond : ft ≠ [] ∧ occursIn ft sum = true
    · have hset : c.set (i - 1) (str "SUMMARY:" ++ clean sum)
          = c1 ++ (str "SUMMARY:" ++ clean sum) :: c2 := by
        rw [hceq, show i - 1 = c1.length from by omega, set_append_mid]
      have hrw : rewriteContent ft clean c
          = c1 ++ (str "SUMMARY:" ++ clean sum) :: c2 := by
        unfold rewriteContent
        rw [hscan]
        dsimp only
        rw [if_pos hcond, hset]
      have hscan2 : scanSum 1 (none, []) (c1 ++ (str "SUMMARY:" ++ clean sum) :: c2)
          = (some (c1.length + 1), clean sum) :=
        scanSum_rewrite c1 c2 (clean sum) hnone
      have hex2 : ¬ exclSummary
          (scanSum 1 (none, []) (c1 ++ (str "SUMMARY:" ++ clean sum) :: c2)).2 := by
        rw [hscan2]
        exact Hexc sum hexs
      have hrc2 : rewriteContent ft clean (c1 ++ (str "SUMMARY:" ++ clean sum) :: c2)
          = c1 ++ (str "SUMMARY:" ++ clean sum) :: c2 := by
        unfold rewriteContent
        rw [hscan2]
        dsimp only
        by_cases hcond2 : ft ≠ [] ∧ occursIn ft (clean sum) = true
        · rw [if_pos hcond2, Hidem sum,
            show c1.length + 1 - 1 = c1.length from by omega, set_append_mid]
        · rw [if_neg hcond2]
      rw [hrw, processItem_block, if_neg hex2, hrc2]
    · have hrw : rewriteContent ft clean c = c := by
        unfold rewriteContent
        rw [hscan]
        dsimp only
        rw [if_neg hcond]
      rw [hrw, processItem_block, if_neg hex, hrw]

theorem processDoc_idem (ft : List Char) (clean : List Char → List Char)
    (items : List DocItem)
    (Hexc : ∀ s, ¬ exclSummary s → ¬ exclSummary (clean s))
    (Hidem : ∀ s, clean (clean s) = clean s) :
    processDoc ft clean (processDoc ft clean items) = processDoc ft clean items := by
  induction items with
  | nil => rfl
  | cons it its ih =>
    cases it with
    | plain l =>
      have h1 : processDoc ft clean (DocItem.plain l :: its)
          = DocItem.plain l :: processDoc ft clean its :=
        List.filterMap_cons_some (processItem_plain ft clean l)
      have h2 : processDoc ft clean (DocItem.plain l :: processDoc ft clean its)
          = DocItem.plain l :: processDoc ft clean (processDoc ft clean its) :=
        List.filterMap_cons_some (processItem_plain ft clean l)
      rw [h1, h2, ih]
    | block c =>
      by_cases hex : exclSummary (scanSum 1 (none, []) c).2
      · have h1 : processDoc ft clean (DocItem.block c :: its)
            = processDoc ft clean its :=
          List.filterMap_cons_none (by rw [processItem_block, if_pos hex])
        rw [h1, ih]
      · have h1 : processDoc ft clean (DocItem.block c :: its)
            = DocItem.block (rewriteContent ft clean c) :: processDoc ft clean its :=
          List.filterMap_cons_some (by rw [processItem_block, if_neg hex])
        have h2 : processDoc ft clean
              (DocItem.block (rewriteContent ft clean c) :: processDoc ft clean its)
            = DocItem.block (rewriteContent ft clean c)
              :: processDoc ft clean (processDoc ft clean its) :=
          List.filterMap_cons_some (processItem_rewrite_idem ft clean c hex Hexc Hidem)
        rw [h1, h2, ih]

theorem filterIcalCore_idem (ft : List Char) (clean : List Char → List Char)
    (items : List DocItem) (hw : wfDoc items)
    (Hpure : ∀ s, (∀ ch ∈ s, ch ≠ '\r' ∧ ch ≠ '\n') →
      ∀ ch ∈ clean s, ch ≠ '\r' ∧ ch ≠ '\n')
    (Hexc : ∀ s, ¬ exclSummary s → ¬ exclSummary (clean s))
    (Hidem : ∀ s, clean (clean s) = clean s) :
    filterIcalCore ft clean
        (filterIcalCore ft clean (joinSep (str "\r\n") (renderDoc items)))
      = filterIcalCore ft clean (joinSep (str "\r\n") (renderDoc items)) := by
  rw [filterIcalCore_renderDoc ft clean items hw, emit_flatten_eq_render,
    filterIcalCore_renderDoc ft clean (processDoc ft clean items)
      (processDoc_wf ft clean items hw Hpure),
    emit_flatten_eq_render,
    processDoc_idem ft clean items Hexc Hidem]

/-!  ## The per-variant `cleanEventName` properties feeding idempotence -/

theorem cleanA_idem (ft s : List Char) :
    cleanEventNameA (cleanEventNameA s ft) ft = cleanEventNameA s ft := by
  by_cases h0 : s = []
  · rw [h0]
    rfl
  · by_cases h1 : ft = str "BlessThun" ∧ occursIn (str "BlessThun") s = true
    · have hs : cleanEventNameA s ft = str "BlessThun" := by
        unfold cleanEventNameA
        rw [if_neg h0, if_pos h1]
      rw [hs]
      unfold cleanEventNameA
      rw [if_neg (by decide), if_pos ⟨h1.1, by decide⟩]
    · by_cases h2 : ft = str "Youth Revival" ∧ occursIn (str "Youth Revival") s = true
      · have hs : cleanEventNameA s ft = str "Youth Revival" := by
          unfold cleanEventNameA
          rw [if_neg h0, if_neg h1, if_pos h2]
        rw [hs]
        unfold cleanEventNameA
        rw [if_neg (by decide),
          if_neg (fun hcon => absurd hcon.2 (by decide)),
          if_pos ⟨h2.1, by decide⟩]
      · have hs : cleanEventNameA s ft = s := by
          unfold cleanEventNameA
          rw [if_neg h0, if_neg h1, if_neg h2]
        rw [hs]
        exact hs

theorem cleanA_excl (ft s : List Char) (h : ¬ exclSummary s) :
    ¬ exclSummary (cleanEventNameA s ft) := by
  unfold cleanEventNameA
  split_ifs with h0 h1 h2
  · exact h
  · decide
  · decide
  · exact h

theorem cleanA_pure (ft s : List Char) (h : ∀ ch ∈ s, ch ≠ '\r' ∧ ch ≠ '\n') :
    ∀ ch ∈ cleanEventNameA s ft, ch ≠ '\r' ∧ ch ≠ '\n' := by
  unfold cleanEventNameA
  split_ifs with h0 h1 h2
  · exact h
  · decide
  · decide
  · exact h

theorem cleanC_ne_nil (s : List Char) (h0 : s ≠ []) :
    cleanEventNameC s
      = if lowerStr (jsTrim s) = str "blessthun" then str "BlessThun"
        else if isPrefixB (str "youth revival") (lowerStr (jsTrim s)) = true
            ∧ ((jsTrim s).drop 13).all isJsWs = true then str "Youth Revival"
        else jsTrim s := by
  unfold cleanEventNameC
  rw [if_neg h0]

theorem dropWhile_head_false {α : Type} (p : α → Bool) (l : List α)
    (c : α) (hc : (l.dropWhile p).head? = some c) : p c = false := by
  induction l with
  | nil => cases hc
  | cons a l ih =>
    by_cases hp : p a = true
    · rw [List.dropWhile_cons_of_pos hp] at hc
      exact ih hc
    · rw [List.dropWhile_cons_of_neg hp] at hc
      injection hc with hc
      rw [← hc]
      simpa using hp

theorem dropWhile_eq_self_of_head {α : Type} (p : α → Bool) (l : List α)
    (h : ∀ c, l.head? = some c → p c = false) : l.dropWhile p = l := by
  cases l with
  | nil => rfl
  | cons a l =>
    rw [List.dropWhile_cons_of_neg]
    simp [h a rfl]

theorem jsTrim_decomp (s : List Char) : ∃ a b, s = a ++ jsTrim s ++ b := by
  refine ⟨s.takeWhile isJsWs, ((s.dropWhile isJsWs).reverse.takeWhile isJsWs).reverse, ?_⟩
  unfold jsTrim
  conv_lhs => rw [← List.takeWhile_append_dropWhile isJsWs s]
  rw [List.append_assoc]
  congr 1
  conv_lhs => rw [← List.reverse_reverse (s.dropWhile isJsWs),
    ← List.takeWhile_append_dropWhile isJsWs (s.dropWhile isJsWs).reverse]
  rw [List.reverse_append]

theorem jsTrim_idem (s : List Char) : jsTrim (jsTrim s) = jsTrim s := by
  set t := s.dropWhile isJsWs with ht
  set A := t.reverse.dropWhile isJsWs with hA
  show ((A.reverse.dropWhile isJsWs).reverse.dropWhile isJsWs).reverse = A.reverse
  have h1 : A.reverse.dropWhile isJsWs = A.reverse := by
    apply dropWhile_eq_self_of_head
    intro c hc
    rw [List.head?_reverse] at hc
    have hAne : A ≠ [] := by
      intro hnil
      rw [hnil] at hc
      cases hc
    obtain ⟨pre, hpre0⟩ : A <:+ t.reverse := by
      rw [hA]
      exact List.dropWhile_suffix isJsWs
    have hgl : t.reverse.getLast? = A.getLast? := by
      rw [← hpre0]
      exact List.getLast?_append_of_ne_nil pre hAne
    rw [← hgl, List.getLast?_reverse] at hc
    exact dropWhile_head_false isJsWs s c hc
  have h2 : A.dropWhile isJsWs = A := by
    apply dropWhile_eq_self_of_head
    intro c hc
    exact dropWhile_head_false isJsWs t.reverse c hc
  rw [h1, List.reverse_reverse, h2]

theorem cleanC_idem (s : List Char) :
    cleanEventNameC (cleanEventNameC s) = cleanEventNameC s := by
  by_cases h0 : s = []
  · rw [h0]
    rfl
  · rw [cleanC_ne_nil s h0]
    split_ifs with h1 h2
    · decide
    · decide
    · by_cases ht : jsTrim s = []
      · rw [ht]
        rfl
      · rw [cleanC_ne_nil (jsTrim s) ht, jsTrim_idem, if_neg h1, if_neg h2]

theorem cleanC_excl (s : List Char) (h : ¬ exclSummary s) :
    ¬ exclSummary (cleanEventNameC s) := by
  by_cases h0 : s = []
  · rw [h0]
    exact exclSummary_nil
  · rw [cleanC_ne_nil s h0]
    split_ifs with h1 h2
    · decide
    · decide
    · intro hcon
      obtain ⟨ex, hexm, hocc⟩ := hcon
      obtain ⟨a, b, hd⟩ := jsTrim_decomp s
      exact h ⟨ex, hexm, occursIn_infix ex (jsTrim s) a b s hd hocc⟩

theorem cleanC_pure (s : List Char) (h : ∀ ch ∈ s, ch ≠ '\r' ∧ ch ≠ '\n') :
    ∀ ch ∈ cleanEventNameC s, ch ≠ '\r' ∧ ch ≠ '\n' := by
  by_cases h0 : s = []
  · rw [h0]
    intro ch hch
    cases hch
  · rw [cleanC_ne_nil s h0]
    split_ifs with h1 h2
    · decide
    · decide
    · intro ch hch
      obtain ⟨a, b, hd⟩ := jsTrim_decomp s
      apply h
      rw [hd]
      exact List.mem_append.mpr (Or.inl (List.mem_append.mpr (Or.inr hch)))

/-!  ## The claims -/

/-- C1 claims exclusion precedence holds in every filtering configuration;
the keep-only-matches filter of part_001's first program has no exclusion
check, so an event matching both an exclude term and the keep text is kept
(and renamed) rather than dropped. -/
theorem claim_C1_counterexample :
    (∃ ex ∈ EXCLUDE_FILTERS,
      occursIn ex (str "Youth Revival Champions League Night") = true)
    ∧ occursIn (str "Youth Revival") (str "Youth Revival Champions League Night") = true
    ∧ filterIcalEventsB
        (str "BEGIN:VCALENDAR\r\nBEGIN:VEVENT\r\nSUMMARY:Youth Revival Champions League Night\r\nEND:VEVENT\r\nEND:VCALENDAR")
        (str "Youth Revival")
      = str "BEGIN:VCALENDAR\r\nBEGIN:VEVENT\r\nSUMMARY:Youth Revival\r\nEND:VEVENT\r\nEND:VCALENDAR" := by
  decide

/-- C1 (amended): exclusion precedence holds in the keep-all-and-rename
filter (part_000 and the JSON-primary program share its loop) and in the JSON
converter: a block whose tracked summary matches an exclude term is dropped
entirely, and an excluded title contributes no block; the keep-only-matches
variant performs no exclusion check. -/
theorem claim_C1_amended (ft : List Char) (pre post : List DocItem)
    (c : List (List Char)) (nm : List Char) (preJ postJ : List JsonEvt)
    (evt : JsonEvt) :
    (wfDoc (pre ++ DocItem.block c :: post) →
      exclSummary (scanSum 1 (none, []) c).2 →
      filterIcalEventsA
        (joinSep (str "\r\n") (renderDoc (pre ++ DocItem.block c :: post))) ft
        = filterIcalEventsA (joinSep (str "\r\n") (renderDoc (pre ++ post))) ft)
    ∧ (wfDoc (pre ++ DocItem.block c :: post) →
      exclSummary (scanSum 1 (none, []) c).2 →
      filterIcalEventsC
        (joinSep (str "\r\n") (renderDoc (pre ++ DocItem.block c :: post))) ft
        = filterIcalEventsC (joinSep (str "\r\n") (renderDoc (pre ++ post))) ft)
    ∧ ((∃ ex ∈ EXCLUDE_FILTERS, evt.title ≠ [] ∧ occursIn ex evt.title = true) →
      jsonEventsToIcal (preJ ++ evt :: postJ) nm
        = jsonEventsToIcal (preJ ++ postJ) nm) :=
  ⟨fun hw hex => filterIcalCore_drop_excluded ft (fun x => cleanEventNameA x ft)
      pre post c hw hex,
   fun hw hex => filterIcalCore_drop_excluded ft cleanEventNameC pre post c hw hex,
   fun hex => jsonEventsToIcal_drop_excluded preJ postJ evt nm hex⟩

/-- Witness for the amended C1 at a concrete document and event list. -/
theorem claim_C1_witness :
    wfDoc ([DocItem.plain (str "BEGIN:VCALENDAR")]
      ++ DocItem.block [str "SUMMARY:Youth Revival Champions League Night"]
        :: [DocItem.plain (str "END:VCALENDAR")])
    ∧ exclSummary
        (scanSum 1 (none, []) [str "SUMMARY:Youth Revival Champions League Night"]).2
    ∧ filterIcalEventsA
        (joinSep (str "\r\n") (renderDoc ([DocItem.plain (str "BEGIN:VCALENDAR")]
          ++ DocItem.block [str "SUMMARY:Youth Revival Champions League Night"]
            :: [DocItem.plain (str "END:VCALENDAR")]))) (str "Youth Revival")
      = filterIcalEventsA
        (joinSep (str "\r\n") (renderDoc ([DocItem.plain (str "BEGIN:VCALENDAR")]
          ++ [DocItem.plain (str "END:VCALENDAR")]))) (str "Youth Revival")
    ∧ jsonEventsToIcal
        ([] ++ { id := 9, uid := str "u9",
                 title := str "Revival Champions League Night special",
                 start := str "2026-01-01 10:00:00",
                 endv := str "2026-01-01 11:00:00",
                 allDay := false, wherev := [], description := [] } :: [])
        (str "youth")
      = jsonEventsToIcal ([] ++ []) (str "youth") :=
  ⟨by decide, by decide,
   (claim_C1_amended (str "Youth Revival") [DocItem.plain (str "BEGIN:VCALENDAR")]
     [DocItem.plain (str "END:VCALENDAR")]
     [str "SUMMARY:Youth Revival Champions League Night"] (str "youth") [] []
     { id := 9, uid := str "u9",
       title := str "Revival Champions League Night special",
       start := str "2026-01-01 10:00:00", endv := str "2026-01-01 11:00:00",
       allDay := false, wherev := [], description := [] }).1 (by decide) (by decide),
   (claim_C1_amended (str "Youth Revival") [DocItem.plain (str "BEGIN:VCALENDAR")]
     [DocItem.plain (str "END:VCALENDAR")]
     [str "SUMMARY:Youth Revival Champions League Night"] (str "youth") [] []
     { id := 9, uid := str "u9",
       title := str "Revival Champions League Night special",
       start := str "2026-01-01 10:00:00", endv := str "2026-01-01 11:00:00",
       allDay := false, wherev := [], description := [] }).2.2 (by decide)⟩

/-- C2 claims any summary containing the family name collapses to exactly the
short label in the filter; the JSON-primary program's `cleanEventName` only
trims and collapses full (case-insensitive) matches, so `BlessThun Prayer`
stays unchanged. -/
theorem claim_C2_counterexample :
    occursIn (str "BlessThun") (str "BlessThun Prayer") = true
    ∧ filterIcalEventsC
        (str "BEGIN:VCALENDAR\r\nBEGIN:VEVENT\r\nSUMMARY:BlessThun Prayer\r\nEND:VEVENT\r\nEND:VCALENDAR")
        (str "BlessThun")
      = str "BEGIN:VCALENDAR\r\nBEGIN:VEVENT\r\nSUMMARY:BlessThun Prayer\r\nEND:VEVENT\r\nEND:VCALENDAR"
    ∧ str "SUMMARY:BlessThun Prayer" ≠ str "SUMMARY:BlessThun" := by
  decide

/-- C2 (amended): in the part_000 filter, a block whose tracked summary
contains the family name has its summary line rewritten to exactly
`SUMMARY:` followed by the canonical label, all other block lines unchanged;
the JSON-primary variant collapses only exact matches. -/
theorem claim_C2_amended (ft s : List Char) (c1 c2 : List (List Char))
    (hft : ft = str "BlessThun" ∨ ft = str "Youth Revival")
    (hw1 : ∀ l ∈ c1, notMarker l ∧ pureLine l = true)
    (hw2 : ∀ l ∈ c2, notMarker l ∧ pureLine l = true)
    (hs : ∀ ch ∈ s, ch ≠ '\r' ∧ ch ≠ '\n')
    (hns : ∀ x ∈ c2, isPrefixB (str "SUMMARY:") x ≠ true)
    (hocc : occursIn ft s = true)
    (hex : ¬ exclSummary s) :
    filterIcalEventsA
      (joinSep (str "\r\n")
        (renderDoc [DocItem.block (c1 ++ (str "SUMMARY:" ++ s) :: c2)])) ft
      = joinSep (str "\r\n")
        (str "BEGIN:VEVENT" :: (c1 ++ (str "SUMMARY:" ++ ft) :: c2)
          ++ [str "END:VEVENT"]) := by
  have hwdoc : wfDoc [DocItem.block (c1 ++ (str "SUMMARY:" ++ s) :: c2)] := by
    intro it hit
    have : it = DocItem.block (c1 ++ (str "SUMMARY:" ++ s) :: c2) := by simpa using hit
    subst this
    intro l hl
    rcases List.mem_append.mp hl with h1 | h2
    · exact hw1 l h1
    · rcases List.mem_cons.mp h2 with h3 | h4
      · subst h3
        exact ⟨summaryLine_notMarker s, summaryLine_pure s hs⟩
      · exact hw2 l h4
  have hcore : filterIcalEventsA
      (joinSep (str "\r\n")
        (renderDoc [DocItem.block (c1 ++ (str "SUMMARY:" ++ s) :: c2)])) ft
      = filterIcalCore ft (fun x => cleanEventNameA x ft)
        (joinSep (str "\r\n")
          (renderDoc [DocItem.block (c1 ++ (str "SUMMARY:" ++ s) :: c2)])) := rfl
  rw [hcore, filterIcalCore_renderDoc _ _ _ hwdoc]
  have hpre : isPrefixB (str "SUMMARY:") (str "SUMMARY:" ++ s) = true :=
    isPrefixB_append_self _ _
  have hdrop : (str "SUMMARY:" ++ s).drop 8 = s := by
    show (str "SUMMARY:" ++ s).drop (str "SUMMARY:").length = s
    exact List.drop_left _ _
  have hftne : ft ≠ [] := by
    rcases hft with h | h
    · subst h; decide
    · subst h; decide
  have hemit := emitBlock_last_summary ft (fun x => cleanEventNameA x ft)
    c1 (str "SUMMARY:" ++ s) c2 hpre hns (by rw [hdrop]; exact hex)
  rw [hdrop] at hemit
  rw [if_pos ⟨hftne, hocc⟩] at hemit
  have hsne : s ≠ [] := occursIn_ne_nil ft s hftne hocc
  have hclean : cleanEventNameA s ft = ft := by
    rcases hft with h | h
    · subst h
      unfold cleanEventNameA
      rw [if_neg hsne, if_pos ⟨rfl, hocc⟩]
    · subst h
      unfold cleanEventNameA
      rw [if_neg hsne, if_neg ?_, if_pos ⟨rfl, hocc⟩]
      intro hcontra
      exact absurd hcontra.1 (by decide)
  dsimp only at hemit
  rw [hclean] at hemit
  simp only [List.map_cons, List.map_nil, emitItem, List.flatten_cons,
    List.flatten_nil, List.append_nil]
  rw [hemit]

/-- Witness for the amended C2 at a concrete block. -/
theorem claim_C2_witness :
    occursIn (str "BlessThun") (str "xBlessThuny") = true
    ∧ ¬ exclSummary (str "xBlessThuny")
    ∧ filterIcalEventsA
        (joinSep (str "\r\n")
          (renderDoc [DocItem.block
            ([str "UID:1"] ++ (str "SUMMARY:" ++ str "xBlessThuny") :: [str "LOCATION:Thun"])]))
        (str "BlessThun")
      = joinSep (str "\r\n")
        (str "BEGIN:VEVENT"
          :: ([str "UID:1"] ++ (str "SUMMARY:" ++ str "BlessThun") :: [str "LOCATION:Thun"])
          ++ [str "END:VEVENT"]) :=
  ⟨by decide, by decide,
   claim_C2_amended (str "BlessThun") (str "xBlessThuny")
     [str "UID:1"] [str "LOCATION:Thun"] (Or.inl rfl)
     (by decide) (by decide) (by decide) (by decide) (by decide) (by decide)⟩

/-- C3 claims a begin marker inside a block is treated as a plain content line
with the accumulated lines retained; on this concrete document the accumulated
line `XQZ` is discarded and the block restarts, so the claim is false. -/
theorem claim_C3_counterexample :
    filterIcalEventsA
      (str "BEGIN:VEVENT\r\nXQZ\r\nBEGIN:VEVENT\r\nSUMMARY:BlessThun\r\nEND:VEVENT")
      (str "BlessThun")
      = str "BEGIN:VEVENT\r\nSUMMARY:BlessThun\r\nEND:VEVENT"
    ∧ occursIn (str "XQZ")
      (filterIcalEventsA
        (str "BEGIN:VEVENT\r\nXQZ\r\nBEGIN:VEVENT\r\nSUMMARY:BlessThun\r\nEND:VEVENT")
        (str "BlessThun")) = false := by
  decide

/-- C3 (amended): a begin marker appearing while already inside a block
restarts the accumulation — the lines gathered so far are discarded, so the
output equals that of the document without the interrupted partial block. -/
theorem claim_C3_amended (ft : List Char) (clean : List Char → List Char)
    (M R : List (List Char)) (hM : ∀ l ∈ M, l ≠ str "END:VEVENT") :
    filterLoop ft clean (str "BEGIN:VEVENT" :: M ++ str "BEGIN:VEVENT" :: R)
      = filterLoop ft clean (str "BEGIN:VEVENT" :: R) :=
  filterLoop_nested_begin ft clean M R hM

/-- Witness for the amended C3 at a concrete document. -/
theorem claim_C3_witness :
    (∀ l ∈ [str "XQZ"], l ≠ str "END:VEVENT")
    ∧ filterLoop (str "BlessThun") (fun s => cleanEventNameA s (str "BlessThun"))
        (str "BEGIN:VEVENT" :: [str "XQZ"]
          ++ str "BEGIN:VEVENT" :: [str "SUMMARY:BlessThun", str "END:VEVENT"])
      = filterLoop (str "BlessThun") (fun s => cleanEventNameA s (str "BlessThun"))
        (str "BEGIN:VEVENT" :: [str "SUMMARY:BlessThun", str "END:VEVENT"]) :=
  ⟨by decide,
   claim_C3_amended (str "BlessThun") (fun s => cleanEventNameA s (str "BlessThun"))
     [str "XQZ"] [str "SUMMARY:BlessThun", str "END:VEVENT"] (by decide)⟩

/-- C10: if the document ends while inside an event block, every line
accumulated for that incomplete block is silently omitted (the output equals
that of the document without the trailing unterminated part); and the output
never contains a begin marker without a later end marker. -/
theorem claim_C10 (ft : List Char) (clean : List Char → List Char)
    (L M lines : List (List Char)) :
    ((∀ l ∈ M, l ≠ str "END:VEVENT") →
      filterLoop ft clean (L ++ str "BEGIN:VEVENT" :: M) = filterLoop ft clean L)
    ∧ closedBegins (filterLoop ft clean lines) = true :=
  ⟨fun hM => filterLoop_trailing_begin ft clean L M hM,
   filterLoop_closedBegins ft clean lines⟩

/-- Witness for C10 at a concrete document with an unterminated block. -/
theorem claim_C10_witness :
    (∀ l ∈ [str "SUMMARY:BlessThun Prayer"], l ≠ str "END:VEVENT")
    ∧ filterLoop (str "BlessThun") (fun s => cleanEventNameA s (str "BlessThun"))
        ([str "BEGIN:VCALENDAR"]
          ++ str "BEGIN:VEVENT" :: [str "SUMMARY:BlessThun Prayer"])
      = filterLoop (str "BlessThun") (fun s => cleanEventNameA s (str "BlessThun"))
        [str "BEGIN:VCALENDAR"]
    ∧ closedBegins
        (filterLoop (str "BlessThun") (fun s => cleanEventNameA s (str "BlessThun"))
          [str "BEGIN:VCALENDAR", str "BEGIN:VEVENT", str "END:VEVENT"]) = true :=
  ⟨by decide,
   (claim_C10 (str "BlessThun") (fun s => cleanEventNameA s (str "BlessThun"))
     [str "BEGIN:VCALENDAR"] [str "SUMMARY:BlessThun Prayer"]
     [str "BEGIN:VCALENDAR", str "BEGIN:VEVENT", str "END:VEVENT"]).1 (by decide),
   (claim_C10 (str "BlessThun") (fun s => cleanEventNameA s (str "BlessThun"))
     [str "BEGIN:VCALENDAR"] [str "SUMMARY:BlessThun Prayer"]
     [str "BEGIN:VCALENDAR", str "BEGIN:VEVENT", str "END:VEVENT"]).2⟩

/-- C4 claims the three line-break conventions are fully equivalent for the
line model; a fold broken by a lone CR is not unfolded while the same fold
broken by a lone LF is, so the resulting logical lines differ. -/
theorem claim_C4_counterexample :
    logicalLines (str "x\n y") = [str "xy"]
    ∧ logicalLines (str "x\r y") = [str "x", str " y"]
    ∧ logicalLines (str "x\n y") ≠ logicalLines (str "x\r y") := by
  decide

/-- C4 (amended): the three line-break conventions are equivalent separators
for splitting — joining any sequence of pure lines with CRLF, LF or CR and
re-splitting recovers the same lines — and a fold broken by CRLF or by a lone
LF (break followed by a space) is unfolded, while the same fold broken by a
lone CR is left as two logical lines. -/
theorem claim_C4_amended (lines : List (List Char)) (a b : List Char)
    (hne : lines ≠ []) (hl : ∀ l ∈ lines, pureLine l = true)
    (ha : ∀ c ∈ a, c ≠ '\r' ∧ c ≠ '\n') (hb : ∀ c ∈ b, c ≠ '\r' ∧ c ≠ '\n') :
    logicalLines (joinSep (str "\r\n") lines) = lines
    ∧ logicalLines (joinSep (str "\n") lines) = lines
    ∧ logicalLines (joinSep (str "\r") lines) = lines
    ∧ logicalLines (a ++ str "\r\n " ++ b) = [a ++ b]
    ∧ logicalLines (a ++ str "\n " ++ b) = [a ++ b]
    ∧ logicalLines (a ++ str "\r " ++ b) = [a, ' ' :: b] := by
  have hab : ∀ c ∈ a ++ b, c ≠ '\r' ∧ c ≠ '\n' := by
    intro c hc
    rcases List.mem_append.mp hc with h | h
    · exact ha c h
    · exact hb c h
  refine ⟨logicalLines_joinCRLF lines hne hl, logicalLines_joinLF lines hne hl,
    logicalLines_joinCR lines hne hl, ?_, ?_, ?_⟩
  · unfold logicalLines
    have h1 : stripCRLFfold (a ++ str "\r\n " ++ b) = a ++ b := by
      rw [List.append_assoc, stripCRLFfold_append_no_cr a _ fun c hc => (ha c hc).1]
      show a ++ stripCRLFfold ('\r' :: '\n' :: ' ' :: b) = a ++ b
      rw [stripCRLFfold_crlf_cons, if_pos (by simp),
        stripCRLFfold_eq_self b fun c hc => (hb c hc).1]
    rw [h1, stripLFfold_eq_self _ fun c hc => (hab c hc).2, splitLines_pure _ hab]
  · unfold logicalLines
    have h0 : stripCRLFfold (a ++ str "\n " ++ b) = a ++ str "\n " ++ b := by
      apply stripCRLFfold_eq_self
      intro c hc
      rcases List.mem_append.mp hc with h | h
      · rcases List.mem_append.mp h with h2 | h3
        · exact (ha c h2).1
        · rcases h3 with _ | ⟨_, h4⟩
          · decide
          · rcases h4 with _ | ⟨_, h5⟩
            · decide
            · cases h5
      · exact (hb c h).1
    have h1 : stripLFfold (a ++ str "\n " ++ b) = a ++ b := by
      rw [List.append_assoc, stripLFfold_append_no_lf a _ fun c hc => (ha c hc).2]
      show a ++ stripLFfold ('\n' :: ' ' :: b) = a ++ b
      rw [stripLFfold_lf_cons, if_pos (by simp),
        stripLFfold_eq_self b fun c hc => (hb c hc).2]
    rw [h0, h1, splitLines_pure _ hab]
  · unfold logicalLines
    have hx : ∀ d rest2, (' ' :: b) ≠ '\n' :: d :: rest2 := by
      intro d rest2 heq
      injection heq with h1 _
      exact absurd h1 (by decide)
    have h0 : stripCRLFfold (a ++ str "\r " ++ b) = a ++ str "\r " ++ b := by
      rw [List.append_assoc, stripCRLFfold_append_no_cr a _ fun c hc => (ha c hc).1]
      show a ++ stripCRLFfold ('\r' :: ' ' :: b) = a ++ ('\r' :: ' ' :: b)
      rw [stripCRLFfold_cons_cr _ hx,
        stripCRLFfold_eq_self (' ' :: b) ?_]
      intro c hc
      rcases List.mem_cons.mp hc with h | h
      · subst h; decide
      · exact (hb c h).1
    have h1 : stripLFfold (a ++ str "\r " ++ b) = a ++ str "\r " ++ b := by
      apply stripLFfold_eq_self
      intro c hc
      rcases List.mem_append.mp hc with h | h
      · rcases List.mem_append.mp h with h2 | h3
        · exact (ha c h2).2
        · rcases h3 with _ | ⟨_, h4⟩
          · decide
          · rcases h4 with _ | ⟨_, h5⟩
            · decide
            · cases h5
      · exact (hb c h).2
    rw [h0, h1, List.append_assoc]
    show splitLines (a ++ ('\r' :: ' ' :: b)) = _
    rw [splitLines_append_pure a _ ha]
    rw [splitLines_cr (' ' :: b) fun rest2 heq => by
      injection heq with h1 _
      exact absurd h1 (by decide)]
    rw [splitLines_pure (' ' :: b) ?_]
    · simp
    · intro c hc
      rcases List.mem_cons.mp hc with h | h
      · subst h; decide
      · exact hb c h

/-- Witness for the amended C4 at concrete lines and fold fragments. -/
theorem claim_C4_witness :
    ([str "abc", str "de"] ≠ ([] : List (List Char)))
    ∧ (∀ l ∈ [str "abc", str "de"], pureLine l = true)
    ∧ logicalLines (joinSep (str "\r\n") [str "abc", str "de"]) = [str "abc", str "de"]
    ∧ logicalLines (joinSep (str "\n") [str "abc", str "de"]) = [str "abc", str "de"]
    ∧ logicalLines (joinSep (str "\r") [str "abc", str "de"]) = [str "abc", str "de"]
    ∧ logicalLines (str "x" ++ str "\r\n " ++ str "y") = [str "x" ++ str "y"]
    ∧ logicalLines (str "x" ++ str "\n " ++ str "y") = [str "x" ++ str "y"]
    ∧ logicalLines (str "x" ++ str "\r " ++ str "y") = [str "x", ' ' :: str "y"] := by
  have h := claim_C4_amended [str "abc", str "de"] (str "x") (str "y")
    (by decide) (by decide) (by decide) (by decide)
  exact ⟨by decide, by decide, h.1, h.2.1, h.2.2.1, h.2.2.2.1, h.2.2.2.2.1, h.2.2.2.2.2⟩

/-- C5 claims a non-empty environment URL always wins; the legacy
`loadConfig` returns an existing config file verbatim, ignoring the
environment. -/
theorem claim_C5_counterexample :
    (loadConfigLegacy
      { BLESSTHUN_ICAL_URL := str "http://env-bless"
        YOUTH_ICAL_URL := str "http://env-youth" }
      (some { blessthunUrl := str "http://file-bless"
              youthUrl := str "http://file-youth"
              lastFetch := none })).blessthunUrl
      = str "http://file-bless"
    ∧ str "http://file-bless" ≠ str "http://env-bless" := by
  decide

/-- C5 (amended): in the JSON-primary variant's `loadConfig`, a non-empty
environment URL takes precedence over the persisted value for both source
URLs; the earlier variants return an existing config file unchanged. -/
theorem claim_C5_amended (env : EnvVars) (file : FileConfig) :
    (env.BLESSTHUN_ICAL_URL ≠ [] →
      (loadConfigC env file).blessthunUrl = env.BLESSTHUN_ICAL_URL)
    ∧ (env.YOUTH_ICAL_URL ≠ [] →
      (loadConfigC env file).youthUrl = env.YOUTH_ICAL_URL) := by
  constructor
  · intro h
    simp [loadConfigC, jsOr, h]
  · intro h
    simp [loadConfigC, jsOr, h]

/-- Witness for the amended C5 at concrete environment and file values. -/
theorem claim_C5_witness :
    str "http://env-bless" ≠ ([] : List Char)
    ∧ (loadConfigC
        { BLESSTHUN_ICAL_URL := str "http://env-bless"
          YOUTH_ICAL_URL := [] }
        { blessthunUrl := str "http://file-bless"
          youthUrl := str "http://file-youth"
          lastFetch := none }).blessthunUrl = str "http://env-bless" :=
  ⟨by decide,
   (claim_C5_amended
     { BLESSTHUN_ICAL_URL := str "http://env-bless", YOUTH_ICAL_URL := [] }
     { blessthunUrl := str "http://file-bless", youthUrl := str "http://file-youth",
       lastFetch := none }).1 (by decide)⟩

/-- C6 claims the iCal fetch path always rejects a body without the
calendar-open marker; the JSON-primary variant's `fetchFromIcal` has no such
check and persists the filtered body anyway. -/
theorem claim_C6_counterexample :
    occursIn (str "BEGIN:VCALENDAR") (str "hello") = false
    ∧ fetchFromIcalC (str "http://x") (some { ok := true, body := str "hello" })
        (str "blessthun.ics")
      = (true, some (str "hello")) := by
  decide

/-- C6 (amended): the iCal-only servers' `fetchCalendar` fails and persists
nothing when the body lacks `BEGIN:VCALENDAR`, and a document is persisted by
those paths only when the response contained the marker; the JSON-primary
variant's `fetchFromIcal` performs no marker check. -/
theorem claim_C6_amended (url : List Char) (r : HttpResp) (ft : List Char) :
    (occursIn (str "BEGIN:VCALENDAR") r.body ≠ true →
      fetchCalendarSrv url (some r) = (false, none)
      ∧ fetchCalendarV1 url (some r) ft = (false, none))
    ∧ (∀ d, (fetchCalendarSrv url (some r)).2 = some d →
        occursIn (str "BEGIN:VCALENDAR") r.body = true)
    ∧ (∀ d, (fetchCalendarV1 url (some r) ft).2 = some d →
        occursIn (str "BEGIN:VCALENDAR") r.body = true) := by
  refine ⟨?_, ?_, ?_⟩
  · intro hm
    by_cases hu : url = []
    · constructor
      · simp [fetchCalendarSrv, hu]
      · simp [fetchCalendarV1, hu]
    · by_cases ho : r.ok = true
      · constructor
        · simp [fetchCalendarSrv, hu, ho, hm]
        · simp [fetchCalendarV1, hu, ho, hm]
      · constructor
        · simp [fetchCalendarSrv, hu, ho]
        · simp [fetchCalendarV1, hu, ho]
  · intro d hd
    by_contra hm
    have hnone : (fetchCalendarSrv url (some r)).2 = none := by
      by_cases hu : url = []
      · simp [fetchCalendarSrv, hu]
      · by_cases ho : r.ok = true
        · simp [fetchCalendarSrv, hu, ho, hm]
        · simp [fetchCalendarSrv, hu, ho]
    rw [hnone] at hd
    cases hd
  · intro d hd
    by_contra hm
    have hnone : (fetchCalendarV1 url (some r) ft).2 = none := by
      by_cases hu : url = []
      · simp [fetchCalendarV1, hu]
      · by_cases ho : r.ok = true
        · simp [fetchCalendarV1, hu, ho, hm]
        · simp [fetchCalendarV1, hu, ho]
    rw [hnone] at hd
    cases hd

/-- Witness for the amended C6 at a concrete marker-free response. -/
theorem claim_C6_witness :
    occursIn (str "BEGIN:VCALENDAR") (str "hello") ≠ true
    ∧ fetchCalendarSrv (str "http://x") (some { ok := true, body := str "hello" })
      = (false, none)
    ∧ fetchCalendarV1 (str "http://x") (some { ok := true, body := str "hello" })
        (str "BlessThun")
      = (false, none) :=
  ⟨by decide,
   ((claim_C6_amended (str "http://x") { ok := true, body := str "hello" }
     (str "BlessThun")).1 (by decide)).1,
   ((claim_C6_amended (str "http://x") { ok := true, body := str "hello" }
     (str "BlessThun")).1 (by decide)).2⟩

/-- C7: for every non-excluded upstream event, the converter emits date-only
`DTSTART;VALUE=DATE:20260320` / `DTEND;VALUE=DATE:20260323` when the all-day
flag is set with start `2026-03-20 00:00:00` and end `2026-03-23 00:00:00`
(first eight digits, no timezone qualifier, no day adjustment), and the
timezone-qualified literal `20260222T170000` for a timed event starting
`2026-02-22 17:00:00`. -/
theorem claim_C7 (nm : List Char) (e1 e2 : JsonEvt)
    (h1x : ¬ ∃ ex ∈ EXCLUDE_FILTERS, e1.title ≠ [] ∧ occursIn ex e1.title = true)
    (h1a : e1.allDay = true) (h1s : e1.start = str "2026-03-20 00:00:00")
    (h1e : e1.endv = str "2026-03-23 00:00:00")
    (h2x : ¬ ∃ ex ∈ EXCLUDE_FILTERS, e2.title ≠ [] ∧ occursIn ex e2.title = true)
    (h2a : e2.allDay = false) (h2s : e2.start = str "2026-02-22 17:00:00") :
    occursIn (str "DTSTART;VALUE=DATE:20260320\r\nDTEND;VALUE=DATE:20260323\r\n")
      (jsonEventsToIcal [e1] nm) = true
    ∧ occursIn (str "DTSTART;TZID=Europe/Zurich:20260222T170000\r\n")
      (jsonEventsToIcal [e2] nm) = true := by
  constructor
  · unfold jsonEventsToIcal
    dsimp only
    rw [List.foldl_cons, List.foldl_nil]
    apply occursIn_extend
    apply occursIn_append_right
    unfold icalEvtChunk
    rw [if_neg h1x]
    dsimp only
    rw [h1a, h1s, h1e, if_pos rfl]
    apply occursIn_extend
    apply occursIn_extend
    apply occursIn_extend
    apply occursIn_append_right
    have ht1 : (stripDTSep (str "2026-03-20 00:00:00")).take 8 = str "20260320" := by
      decide
    have ht2 : (stripDTSep (str "2026-03-23 00:00:00")).take 8 = str "20260323" := by
      decide
    rw [ht1, ht2]
    have hdl : str "DTSTART;VALUE=DATE:" ++ str "20260320" ++ str "\r\nDTEND;VALUE=DATE:"
        ++ str "20260323" ++ str "\r\n"
        = str "DTSTART;VALUE=DATE:20260320\r\nDTEND;VALUE=DATE:20260323\r\n" := by
      decide
    rw [hdl]
    exact occursIn_self _
  · unfold jsonEventsToIcal
    dsimp only
    rw [List.foldl_cons, List.foldl_nil]
    apply occursIn_extend
    apply occursIn_append_right
    unfold icalEvtChunk
    rw [if_neg h2x]
    dsimp only
    rw [h2a, h2s, if_neg (show ¬(false = true) by decide)]
    apply occursIn_extend
    apply occursIn_extend
    apply occursIn_extend
    apply occursIn_append_right
    have hx : insertT (stripDTSep (str "2026-02-22 17:00:00")) = str "20260222T170000" := by
      decide
    rw [hx]
    apply occursIn_infix _ _ []
      (str "DTEND;TZID=Europe/Zurich:" ++ insertT (stripDTSep e2.endv) ++ str "\r\n") _
      ?_ (occursIn_self _)
    rw [List.nil_append]
    have hconcat : str "DTSTART;TZID=Europe/Zurich:" ++ str "20260222T170000"
        ++ str "\r\nDTEND;TZID=Europe/Zurich:"
        = str "DTSTART;TZID=Europe/Zurich:20260222T170000\r\n"
          ++ str "DTEND;TZID=Europe/Zurich:" := by
      decide
    calc str "DTSTART;TZID=Europe/Zurich:" ++ str "20260222T170000"
          ++ str "\r\nDTEND;TZID=Europe/Zurich:" ++ insertT (stripDTSep e2.endv)
          ++ str "\r\n"
        = (str "DTSTART;TZID=Europe/Zurich:" ++ str "20260222T170000"
            ++ str "\r\nDTEND;TZID=Europe/Zurich:")
          ++ (insertT (stripDTSep e2.endv) ++ str "\r\n") := by
          simp [List.append_assoc]
      _ = (str "DTSTART;TZID=Europe/Zurich:20260222T170000\r\n"
            ++ str "DTEND;TZID=Europe/Zurich:")
          ++ (insertT (stripDTSep e2.endv) ++ str "\r\n") := by
          rw [hconcat]
      _ = str "DTSTART;TZID=Europe/Zurich:20260222T170000\r\n"
          ++ (str "DTEND;TZID=Europe/Zurich:" ++ insertT (stripDTSep e2.endv)
            ++ str "\r\n") := by
          simp [List.append_assoc]

/-- Witness for C7 at two concrete upstream events. -/
theorem claim_C7_witness :
    (¬ ∃ ex ∈ EXCLUDE_FILTERS,
      (str "Youth Camp") ≠ [] ∧ occursIn ex (str "Youth Camp") = true)
    ∧ occursIn (str "DTSTART;VALUE=DATE:20260320\r\nDTEND;VALUE=DATE:20260323\r\n")
      (jsonEventsToIcal
        [{ id := 1, uid := str "u1", title := str "Youth Camp",
           start := str "2026-03-20 00:00:00", endv := str "2026-03-23 00:00:00",
           allDay := true, wherev := [], description := [] }] (str "blessthun")) = true
    ∧ occursIn (str "DTSTART;TZID=Europe/Zurich:20260222T170000\r\n")
      (jsonEventsToIcal
        [{ id := 2, uid := str "u2", title := str "Worship Night",
           start := str "2026-02-22 17:00:00", endv := str "2026-02-22 19:00:00",
           allDay := false, wherev := [], description := [] }] (str "youth")) = true := by
  have h := claim_C7 (str "blessthun")
    { id := 1, uid := str "u1", title := str "Youth Camp",
      start := str "2026-03-20 00:00:00", endv := str "2026-03-23 00:00:00",
      allDay := true, wherev := [], description := [] }
    { id := 2, uid := str "u2", title := str "Worship Night",
      start := str "2026-02-22 17:00:00", endv := str "2026-02-22 19:00:00",
      allDay := false, wherev := [], description := [] }
    (by decide) rfl rfl rfl (by decide) rfl rfl
  have h2 := claim_C7 (str "youth")
    { id := 1, uid := str "u1", title := str "Youth Camp",
      start := str "2026-03-20 00:00:00", endv := str "2026-03-23 00:00:00",
      allDay := true, wherev := [], description := [] }
    { id := 2, uid := str "u2", title := str "Worship Night",
      start := str "2026-02-22 17:00:00", endv := str "2026-02-22 19:00:00",
      allDay := false, wherev := [], description := [] }
    (by decide) rfl rfl rfl (by decide) rfl rfl
  exact ⟨by decide, h.1, h2.2⟩

/-- C9: when the JSON path reports a non-list payload the iCal fallback is
what determines the outcome; a failed cycle writes nothing (and the source
contains no delete), so the previously cached document is untouched; and when
both paths fail the identity is marked failed. -/
theorem claim_C9 (jr : Option (Option (List JsonEvt))) (ty icalUrl : List Char)
    (icalResp : Option HttpResp) (filename : List Char) :
    (jr = some none →
      fetchCalendarC jr ty icalUrl icalResp filename
        = fetchFromIcalC icalUrl icalResp filename)
    ∧ ((fetchCalendarC jr ty icalUrl icalResp filename).1 = false →
      (fetchCalendarC jr ty icalUrl icalResp filename).2 = none)
    ∧ ((fetchFromJsonApiC jr ty).1 = false →
      (fetchFromIcalC icalUrl icalResp filename).1 = false →
      (fetchCalendarC jr ty icalUrl icalResp filename).1 = false) := by
  refine ⟨?_, ?_, ?_⟩
  · intro hj
    subst hj
    rfl
  · intro hf
    unfold fetchCalendarC at hf ⊢
    rcases jr with _ | jr2
    · exact fetchFromIcalC_fail _ _ _ hf
    · rcases jr2 with _ | evts
      · exact fetchFromIcalC_fail _ _ _ hf
      · cases hf
  · intro hjf hif
    unfold fetchCalendarC
    rcases jr with _ | jr2
    · simpa [fetchFromJsonApiC] using hif
    · rcases jr2 with _ | evts
      · simpa [fetchFromJsonApiC] using hif
      · cases hjf

/-- Witness for C9 with a non-list JSON payload and an unreachable iCal URL. -/
theorem claim_C9_witness :
    (some (none : Option (List JsonEvt)) = some none →
      fetchCalendarC (some none) (str "blessthun") (str "http://u") none
        (str "blessthun.ics")
        = fetchFromIcalC (str "http://u") none (str "blessthun.ics"))
    ∧ ((fetchCalendarC (some none) (str "blessthun") (str "http://u") none
        (str "blessthun.ics")).1 = false →
      (fetchCalendarC (some none) (str "blessthun") (str "http://u") none
        (str "blessthun.ics")).2 = none)
    ∧ (fetchCalendarC (some none) (str "blessthun") (str "http://u") none
        (str "blessthun.ics")).2 = none :=
  ⟨(claim_C9 (some none) (str "blessthun") (str "http://u") none
      (str "blessthun.ics")).1,
   (claim_C9 (some none) (str "blessthun") (str "http://u") none
      (str "blessthun.ics")).2.1,
   (claim_C9 (some none) (str "blessthun") (str "http://u") none
      (str "blessthun.ics")).2.1 (by decide)⟩

/-- C8 claims the filter is idempotent on every document.  The unfold step is
not idempotent: in `"x\r y"` the lone CR is not a fold sequence, so the first
pass keeps the two logical lines `x` and ` y` and re-joins them with CRLF;
the second pass then sees `x\r\n y`, which IS a fold sequence, and merges the
two lines into `xy`.  Both filter variants share this pipeline. -/
theorem claim_C8_counterexample :
    filterIcalEventsA (filterIcalEventsA (str "x\r y") (str "BlessThun"))
        (str "BlessThun")
      ≠ filterIcalEventsA (str "x\r y") (str "BlessThun")
    ∧ filterIcalEventsC (filterIcalEventsC (str "x\r y") (str "BlessThun"))
        (str "BlessThun")
      ≠ filterIcalEventsC (str "x\r y") (str "BlessThun") := by
  constructor
  · decide
  · decide

/-- C8 (amended): both filter variants (part_000's keep-all-and-rename
`filterIcalEvents` and the JSON-primary program's variant) are idempotent on
every well-formed document — a CRLF-joined sequence of items in which every
line is CR/LF-free, does not start with space or tab, and no block content
line is a begin or end marker. -/
theorem claim_C8_amended (ft : List Char) (items : List DocItem)
    (hw : wfDoc items) :
    (filterIcalEventsA
        (filterIcalEventsA (joinSep (str "\r\n") (renderDoc items)) ft) ft
      = filterIcalEventsA (joinSep (str "\r\n") (renderDoc items)) ft)
    ∧ (filterIcalEventsC
        (filterIcalEventsC (joinSep (str "\r\n") (renderDoc items)) ft) ft
      = filterIcalEventsC (joinSep (str "\r\n") (renderDoc items)) ft) := by
  constructor
  · unfold filterIcalEventsA
    exact filterIcalCore_idem ft (fun s => cleanEventNameA s ft) items hw
      (fun s hs => cleanA_pure ft s hs) (fun s hs => cleanA_excl ft s hs)
      (fun s => cleanA_idem ft s)
  · unfold filterIcalEventsC
    exact filterIcalCore_idem ft cleanEventNameC items hw
      cleanC_pure cleanC_excl cleanC_idem

/-- Witness: the amended idempotence theorem applied to a concrete two-item
document (a calendar property line and one event block). -/
theorem claim_C8_witness :
    wfDoc [DocItem.plain (str "X-WR-CALNAME:Youth"),
      DocItem.block [str "SUMMARY:BlessThun Prayer", str "LOCATION:Hall"]]
    ∧ ((filterIcalEventsA
          (filterIcalEventsA
            (joinSep (str "\r\n")
              (renderDoc [DocItem.plain (str "X-WR-CALNAME:Youth"),
                DocItem.block [str "SUMMARY:BlessThun Prayer",
                  str "LOCATION:Hall"]]))
            (str "BlessThun")) (str "BlessThun")
        = filterIcalEventsA
            (joinSep (str "\r\n")
              (renderDoc [DocItem.plain (str "X-WR-CALNAME:Youth"),
                DocItem.block [str "SUMMARY:BlessThun Prayer",
                  str "LOCATION:Hall"]]))
            (str "BlessThun"))
      ∧ (filterIcalEventsC
          (filterIcalEventsC
            (joinSep (str "\r\n")
              (renderDoc [DocItem.plain (str "X-WR-CALNAME:Youth"),
                DocItem.block [str "SUMMARY:BlessThun Prayer",
                  str "LOCATION:Hall"]]))
            (str "BlessThun")) (str "BlessThun")
        = filterIcalEventsC
            (joinSep (str "\r\n")
              (renderDoc [DocItem.plain (str "X-WR-CALNAME:Youth"),
                DocItem.block [str "SUMMARY:BlessThun Prayer",
                  str "LOCATION:Hall"]]))
            (str "BlessThun"))) :=
  ⟨by decide,
   claim_C8_amended (str "BlessThun")
     [DocItem.plain (str "X-WR-CALNAME:Youth"),
       DocItem.block [str "SUMMARY:BlessThun Prayer", str "LOCATION:Hall"]]
     (by decide)⟩

end YouthTimeline
